import Mathlib

/-!
Verification of the record-linkage core of the Taiwan_Scraper repository
(src/DataMerger.py, src/DataMerger2.py, src/DataMerger4.py) against its
natural-language specification.

Python strings are modelled as `List Char`; nullable values (None / NaN)
as `Option`.  Floating-point similarity scores are modelled as exact
rationals; all score arithmetic in the code (ratio computation, weighted
combination, threshold comparison) is carried out on small fractions where
the rational model is the intended real-number semantics.
-/

namespace TaiwanScraper

/-- Python strings are lists of unicode characters. -/
abbrev Str := List Char

/-- Characters treated as whitespace by Python's `str.split()` / `str.strip()`
(restricted to the ASCII whitespace characters; the only non-ASCII whitespace
relevant to this data, the ideographic space U+3000, is already mapped to a
plain space by the NFKC step that precedes every split in the code). -/
def pyWs (c : Char) : Bool :=
  c = ' ' || c = '\t' || c = '\n' || c = '\r' || c = '\x0b' || c = '\x0c'

/-- Character-to-character table modelling `unicodedata.normalize('NFKC', ·)`
restricted to the compatibility characters that this repository's data and
regexes can produce: the full-width punctuation used in `normalize_text`'s
punctuation class, full-width decimal digits, the ideographic space and the
no-break space.  All other characters are left fixed (NFKC is the identity on
the ASCII and CJK-ideograph characters the pipeline otherwise handles). -/
def nfkcTable : List (Char × Char) :=
  [('　', ' '), (' ', ' '),
   ('！', '!'), ('？', '?'), ('：', ':'), ('；', ';'), ('，', ','),
   ('（', '('), ('）', ')'),
   ('０', '0'), ('１', '1'), ('２', '2'), ('３', '3'), ('４', '4'),
   ('５', '5'), ('６', '6'), ('７', '7'), ('８', '8'), ('９', '9')]

/-- NFKC normalization, modelled character-wise through `nfkcTable`. -/
def nfkcChar (c : Char) : Char :=
  match nfkcTable.find? (fun p => p.1 = c) with
  | some p => p.2
  | none => c

/-- Python `str.lower()`, modelled on the ASCII range (the identity on the
CJK characters of this data set, as in Python): code points 65–90 are
shifted to 97–122. -/
def pyLowerChar (c : Char) : Char :=
  if 65 ≤ c.toNat ∧ c.toNat ≤ 90 then Char.ofNat (c.toNat + 32) else c

/-- Accumulator worker for `pySplit`: `acc` holds the reversed current word. -/
def pySplitAux : Str → Str → List Str
  | [], acc => if acc = [] then [] else [acc.reverse]
  | c :: rest, acc =>
    if pyWs c then
      if acc = [] then pySplitAux rest [] else acc.reverse :: pySplitAux rest []
    else pySplitAux rest (c :: acc)

/-- The words of a string: maximal runs of non-whitespace characters, in
order.  This is Python's `text.split()`. -/
def pySplit (s : Str) : List Str := pySplitAux s []

/-- Join a list of words with single spaces: `' '.join(·)`. -/
def joinSpace : List Str → Str
  | [] => []
  | [w] => w
  | w :: rest => w ++ ' ' :: joinSpace rest

/-- Python `' '.join(text.split())`: collapse whitespace runs to single
spaces and drop leading/trailing whitespace. -/
def collapseWs (s : Str) : Str := joinSpace (pySplit s)

/-- The punctuation class of `normalize_text`'s `re.sub`.  In the Python
source the pattern is written as two adjacent string literals, so the class
is `.,;:!?[]()"` plus the three double quotes (one character once deduplicated)
and the CJK marks `、。，；：！？【】（）`; no apostrophe is in the class. -/
def punctList : List Char :=
  ['.', ',', ';', ':', '!', '?', '[', ']', '(', ')', '"',
   '、', '。', '，', '；', '：', '！', '？', '【', '】', '（', '）']

/-- Remove every character of the punctuation class
(`re.sub(r'[...]', '', text)` over a single-character class is a filter). -/
def removePunct (s : Str) : Str := s.filter (fun c => !punctList.contains c)

/-- Python `str.strip()`: drop leading and trailing whitespace. -/
def pyStrip (s : Str) : Str :=
  (((s.dropWhile pyWs).reverse).dropWhile pyWs).reverse

/-- Exact non-negative rational, kept as an unreduced numerator/denominator
pair.  Python's float arithmetic on similarity scores is modelled by exact
rational arithmetic; every score the pipeline builds has a positive
denominator. -/
structure Score where
  num : Nat
  den : Nat
deriving DecidableEq, Repr

namespace Score

/-- Strict comparison of scores by cross multiplication. -/
def blt (x y : Score) : Bool := x.num * y.den < y.num * x.den

/-- Non-strict comparison of scores by cross multiplication. -/
def ble (x y : Score) : Bool := x.num * y.den ≤ y.num * x.den

/-- Product of scores. -/
def mul (x y : Score) : Score := ⟨x.num * y.num, x.den * y.den⟩

/-- Sum of scores. -/
def add (x y : Score) : Score := ⟨x.num * y.den + y.num * x.den, x.den * y.den⟩

/-- The rational value of a score. -/
def toRat (x : Score) : ℚ := (x.num : ℚ) / (x.den : ℚ)

end Score

end TaiwanScraper

namespace DataMerger

open TaiwanScraper

/-- The sentinel string used by the upstream scrapers for absent fields. -/
def missingStr : Str := "missing".data

/-- src/DataMerger.py `normalize_text` (identical in src/DataMerger2.py):
None/NaN or the exact string "missing" map to the empty string; otherwise
NFKC-normalize, collapse whitespace, lowercase, strip the punctuation class,
and trim.  Note that the sentinel test `text == "missing"` in the source is
an exact, case-sensitive, untrimmed comparison. -/
def normalize_text (t : Option Str) : Str :=
  match t with
  | none => []
  | some s =>
    if s = missingStr then []
    else pyStrip (removePunct ((collapseWs (s.map nfkcChar)).map pyLowerChar))

/-- Decimal digits accepted by the `\d` of `re.search(r'(\d{4})', ·)`,
restricted to the ASCII digits this model's NFKC step leaves in place
(full-width digits are already folded to ASCII by `nfkcChar`; raw unnormalized
text fed to `extract_year_from_text` can also carry full-width digits, which
we include). -/
def pyIsDigit (c : Char) : Bool :=
  ('0' ≤ c && c ≤ '9') || ('０' ≤ c && c ≤ '９')

/-- The numeric value of a (possibly full-width) decimal digit. -/
def digitVal (c : Char) : Nat :=
  if '0' ≤ c && c ≤ '9' then c.toNat - '0'.toNat else c.toNat - '０'.toNat

/-- The value of a four-digit window. -/
def fourVal (c1 c2 c3 c4 : Char) : Nat :=
  1000 * digitVal c1 + 100 * digitVal c2 + 10 * digitVal c3 + digitVal c4

/-- Leftmost window of four consecutive decimal digits, as
`re.search(r'(\d{4})', ·)` finds it: the scan moves one character at a time
and does not require the window to be a maximal digit run. -/
def findFourDigits : Str → Option (Char × Char × Char × Char)
  | [] => none
  | c1 :: rest =>
    match rest with
    | c2 :: c3 :: c4 :: _ =>
      if pyIsDigit c1 && pyIsDigit c2 && pyIsDigit c3 && pyIsDigit c4 then
        some (c1, c2, c3, c4)
      else findFourDigits rest
    | _ => none

/-- src/DataMerger.py `extract_year_from_text` (identical in
src/DataMerger2.py): None or the sentinel give None; otherwise the first
four-consecutive-digit window is taken, and its value is returned exactly
when it lies in [1800, 2030]. -/
def extract_year_from_text (t : Option Str) : Option Nat :=
  match t with
  | none => none
  | some s =>
    if s = missingStr then none
    else
      match findFourDigits s with
      | some (c1, c2, c3, c4) =>
        let y := fourVal c1 c2 c3 c4
        if 1800 ≤ y ∧ y ≤ 2030 then some y else none
      | none => none

/-- The authorship-marker characters of src/DataMerger.py line 58: the
character class `[著编主编撰写作者]` (simplified 编 only; the traditional 編
is absent in this file). -/
def markerSet1 : List Char := ['著', '编', '主', '撰', '写', '作', '者']

/-- The authorship-marker characters of src/DataMerger2.py line 58: the
character class `[著編主编撰写作者]` (both the traditional 編 and the
simplified 编). -/
def markerSet2 : List Char := ['著', '編', '主', '编', '撰', '写', '作', '者']

/-- Strip one trailing marker character: `re.sub(r'[markers]$', '', text)`
removes at most the single last character, since the anchored
single-character class can match only once. -/
def stripOneMarker (markers : List Char) (s : Str) : Str :=
  match s.getLast? with
  | some c => if markers.contains c then s.dropLast else s
  | none => s

/-- One delimiter-truncation step: `text.split(d)[0]` guarded by
`if d in text`, which is the prefix before the first occurrence of `d`. -/
def cutAt (d : Char) (s : Str) : Str :=
  if s.contains d then s.takeWhile (fun c => c != d) else s

/-- src/DataMerger.py `extract_author_from_text`: strip one trailing marker
of `markerSet1`, then cut at ',', then at '；', then at ';', then trim. -/
def extract_author_from_text (t : Option Str) : Str :=
  match t with
  | none => []
  | some s =>
    if s = missingStr then []
    else pyStrip (cutAt ';' (cutAt '；' (cutAt ',' (stripOneMarker markerSet1 s))))

/-- Python truthiness of an optional integer (`if year and ...`):
None and 0 are falsy. -/
def truthyNat (o : Option Nat) : Bool :=
  match o with
  | none => false
  | some y => y != 0

/-- The year component of the composite key:
`str(year) if year and not pd.isna(year) else "unknown"`. -/
def yearKeyStr (year : Option Nat) : Str :=
  match year with
  | some y => if y ≠ 0 then (toString y).data else "unknown".data
  | none => "unknown".data

/-- src/DataMerger.py `create_composite_key` (identical in
src/DataMerger2.py): `normalize(title) | normalize(extract_author(author)) |
year-or-"unknown"`, with the `|` separators inserted unescaped. -/
def create_composite_key (title author : Option Str) (year : Option Nat) : Str :=
  normalize_text title ++ '|' ::
    (normalize_text (some (extract_author_from_text author)) ++ '|' :: yearKeyStr year)

end DataMerger

namespace DataMerger2

open TaiwanScraper

/-- src/DataMerger2.py `extract_author_from_text`: identical to the
DataMerger variant except that the marker class also contains the
traditional 編. -/
def extract_author_from_text (t : Option Str) : Str :=
  match t with
  | none => []
  | some s =>
    if s = DataMerger.missingStr then []
    else pyStrip (DataMerger.cutAt ';' (DataMerger.cutAt '；'
      (DataMerger.cutAt ',' (DataMerger.stripOneMarker DataMerger.markerSet2 s))))

end DataMerger2

/-!
Model of `difflib.SequenceMatcher(None, a, b)` as both DataMerger scripts
use it.  `isjunk` is `None`, so the junk set is empty and the two junk
extension loops of `find_longest_match` never fire; they are therefore not
reproduced.  The `autojunk` popularity heuristic (which only alters `b2j`
when `len(b) >= 200`) is not modelled.  CPython's `get_matching_blocks`
drives the recursion with an explicit stack, then sorts the blocks and
coalesces adjacent ones; both steps permute or merge blocks without changing
the total matched size, which is the only quantity `ratio` consumes, so the
recursion below produces the blocks in order directly.
-/

namespace Difflib

open TaiwanScraper

/-- The triple (i, j, size) returned by `find_longest_match`. -/
structure Match3 where
  besti : Nat
  bestj : Nat
  bestsize : Nat
deriving DecidableEq, Repr

/-- The `b2j` index of SequenceMatcher: the ascending list of positions of a
character in `b`. -/
def b2j (b : Str) (c : Char) : List Nat :=
  (List.range b.length).filter (fun j => b.getD j ' ' == c)

/-- The inner loop of `find_longest_match` for row `i`: walk the candidate
positions `j` of `a[i]` in `b`, skipping `j < blo` (`continue`) and stopping
at `j >= bhi` (`break`); each surviving `j` extends the diagonal run read
from the previous row's dictionary `g` (`j2len.get(j-1, 0) + 1`), records it
in the fresh dictionary, and takes over as best when strictly longer. -/
def flmInner (i blo bhi : Nat) (g : Nat → Nat) :
    List Nat → (Nat → Nat) → Match3 → ((Nat → Nat) × Match3)
  | [], nj, st => (nj, st)
  | j :: rest, nj, st =>
    if j < blo then flmInner i blo bhi g rest nj st
    else if bhi ≤ j then (nj, st)
    else
      let k := (if j = 0 then 0 else g (j - 1)) + 1
      let nj2 := fun x => if x = j then k else nj x
      let st2 := if st.bestsize < k then ⟨i + 1 - k, j + 1 - k, k⟩ else st
      flmInner i blo bhi g rest nj2 st2

/-- The outer loop of `find_longest_match`: one `flmInner` pass per row
`i ∈ [alo, ahi)`, threading the best match and handing each row the previous
row's dictionary while it fills a fresh one. -/
def flmRows (a b : Str) (blo bhi : Nat) :
    List Nat → (Nat → Nat) → Match3 → ((Nat → Nat) × Match3)
  | [], g, st => (g, st)
  | i :: rest, g, st =>
    let p := flmInner i blo bhi g (b2j b (a.getD i ' ')) (fun _ => 0) st
    flmRows a b blo bhi rest p.1 p.2

/-- The first non-junk extension loop: grow the best match backwards while
the preceding characters agree. -/
def extendBack (a b : Str) (alo blo : Nat) : Nat → Match3 → Match3
  | 0, st => st
  | fuel + 1, st =>
    if alo < st.besti ∧ blo < st.bestj ∧
        a.getD (st.besti - 1) ' ' = b.getD (st.bestj - 1) ' ' then
      extendBack a b alo blo fuel ⟨st.besti - 1, st.bestj - 1, st.bestsize + 1⟩
    else st

/-- The second non-junk extension loop: grow the best match forwards while
the following characters agree. -/
def extendFwd (a b : Str) (ahi bhi : Nat) : Nat → Match3 → Match3
  | 0, st => st
  | fuel + 1, st =>
    if st.besti + st.bestsize < ahi ∧ st.bestj + st.bestsize < bhi ∧
        a.getD (st.besti + st.bestsize) ' ' = b.getD (st.bestj + st.bestsize) ' ' then
      extendFwd a b ahi bhi fuel ⟨st.besti, st.bestj, st.bestsize + 1⟩
    else st

/-- `find_longest_match(alo, ahi, blo, bhi)` with an empty junk set: the
dynamic-programming main loop followed by the two extension loops (their
`while` conditions allow at most `besti - alo` resp. `ahi` iterations, so
those counts serve as fuel). -/
def find_longest_match (a b : Str) (alo ahi blo bhi : Nat) : Match3 :=
  let p := flmRows a b blo bhi (List.range' alo (ahi - alo)) (fun _ => 0) ⟨alo, blo, 0⟩
  extendFwd a b ahi bhi ahi (extendBack a b alo blo p.2.besti p.2)

/-- `get_matching_blocks` restricted to a region: find the longest match,
declare it a block when non-empty, and recurse on the region before it and
the region after it exactly under the conditions the Python code uses to
push subregions.  Each recursive call shrinks the region, so a fuel of
`len(a) + len(b) + 1` at the top level can never be exhausted. -/
def matchBlocks (a b : Str) : Nat → Nat → Nat → Nat → Nat → List Match3
  | 0, _, _, _, _ => []
  | fuel + 1, alo, ahi, blo, bhi =>
    let m := find_longest_match a b alo ahi blo bhi
    if m.bestsize = 0 then []
    else
      (if alo < m.besti ∧ blo < m.bestj then
        matchBlocks a b fuel alo m.besti blo m.bestj
      else []) ++
      m ::
      (if m.besti + m.bestsize < ahi ∧ m.bestj + m.bestsize < bhi then
        matchBlocks a b fuel (m.besti + m.bestsize) ahi (m.bestj + m.bestsize) bhi
      else [])

/-- The sum of the sizes of a block list. -/
def sumSizes (l : List Match3) : Nat := (l.map (fun m => m.bestsize)).sum

/-- The total number of matched elements, `sum(size for _, _, size in
get_matching_blocks())`. -/
def matchesTotal (a b : Str) : Nat :=
  sumSizes (matchBlocks a b (a.length + b.length + 1) 0 a.length 0 b.length)

end Difflib

namespace DataMerger

open TaiwanScraper

/-- src/DataMerger.py `similarity_score` (identical in src/DataMerger2.py):
0.0 when either string is falsy (empty), otherwise
`SequenceMatcher(None, str1, str2).ratio()`, which is `2*M / T` for `M` the
total matched size and `T` the sum of the lengths. -/
def similarity_score (s1 s2 : Str) : Score :=
  if s1 = [] ∨ s2 = [] then ⟨0, 1⟩
  else ⟨2 * Difflib.matchesTotal s1 s2, s1.length + s2.length⟩

end DataMerger

namespace DataMerger

open TaiwanScraper

/-- One row of the detailed dataset as `merge_datasets` in src/DataMerger.py
consumes it: the columns of the PublicationScraper output table plus the
derived `extracted_year`, `composite_key` and `simple_key` columns added by
`load_and_prepare_dataset1`. -/
structure DetailedRec where
  subject : Option Str
  url : Option Str
  record_number : Option Str
  title : Option Str
  language : Option Str
  imprint : Option Str
  publication : Option Str
  extracted_year : Option Nat
  composite_key : Str
  simple_key : Str
deriving DecidableEq, Repr

/-- One row of the summary dataset as `merge_datasets` consumes it: the
columns of the TaiwanNCLScraper output table plus the derived `year_int`,
`composite_key` and `simple_key` columns added by
`load_and_prepare_dataset2`. -/
structure SummaryRec where
  subject : Option Str
  url : Option Str
  title : Option Str
  author : Option Str
  publisher : Option Str
  year : Option Str
  call_number : Option Str
  year_int : Option Nat
  composite_key : Str
  simple_key : Str
deriving DecidableEq, Repr

/-- One row of the merged output.  The pandas frames materialize a flat
column union of the two sides (suffixed where names collide) plus the match
metadata; every such column is a projection of one of the two source rows,
so the row is modelled as the pair of source records together with the
metadata, which carries the same information. -/
structure MergedRow where
  detailed : DetailedRec
  summary : SummaryRec
  match_type : Str
  similarity_score : Score
deriving DecidableEq, Repr

/-- The Phase-1 inner join on `composite_key`
(`pd.merge(df1, df2, on='composite_key', how='inner', ...)`): for each left
row in order, one output row per right row sharing its key, in order —
the full cross product of same-key rows.  The `exact` tag and the 1.0 score
are attached to these rows after the fuzzy loop in the source; the result is
the same. -/
def exactRows (df1 : List DetailedRec) (df2 : List SummaryRec) : List MergedRow :=
  df1.flatMap fun d =>
    (df2.filter fun s => s.composite_key == d.composite_key).map fun s =>
      ⟨d, s, "exact".data, ⟨1, 1⟩⟩

/-- Policy A fuzzy threshold, `similarity_threshold = 0.85`. -/
def thresholdA : Score := ⟨85, 100⟩

/-- The Policy A inner scan of src/DataMerger.py `merge_datasets`: walk all
remaining summary rows; skip a candidate when both years are truthy and
differ; otherwise compute the title similarity on normalized titles and take
the candidate over when it strictly exceeds both the 0.85 threshold and the
best score so far (`best_score` starts at 0, `best_match` at None). -/
def stepA (d : DetailedRec) (best : Option (SummaryRec × Score)) (s : SummaryRec) :
    Option (SummaryRec × Score) :=
  if truthyNat d.extracted_year && truthyNat s.year_int &&
      !(d.extracted_year == s.year_int) then best
  else
    let ts := similarity_score (normalize_text d.title) (normalize_text s.title)
    let bs : Score := match best with | none => ⟨0, 1⟩ | some p => p.2
    if thresholdA.blt ts && bs.blt ts then some (s, ts) else best

/-- The whole Policy A scan for one detailed row is a fold of `stepA` over
the unmatched summary pool. -/
def bestA (d : DetailedRec) (pool : List SummaryRec) : Option (SummaryRec × Score) :=
  pool.foldl (stepA d) none

/-- src/DataMerger.py `merge_datasets`: Phase 1 is the exact inner join on
`composite_key`; the unmatched frames drop every row whose key occurs among
the exact matches (`isin`); Phase 2 scans each unmatched detailed row over
the unmatched summary pool and appends a fuzzy merged row for each accepted
best match.  The function returns the concatenated matches together with
the unmatched frames — which are the ones computed before the fuzzy phase,
so fuzzy-matched rows stay inside them. -/
def exactKeys (df1 : List DetailedRec) (df2 : List SummaryRec) : List Str :=
  (exactRows df1 df2).map fun r => r.detailed.composite_key

/-- The unmatched detailed frame computed before the fuzzy phase:
`df1[~df1['composite_key'].isin(exact_matches['composite_key'])]`. -/
def unmatched1 (df1 : List DetailedRec) (df2 : List SummaryRec) : List DetailedRec :=
  df1.filter fun d => !((exactKeys df1 df2).contains d.composite_key)

/-- The unmatched summary frame computed before the fuzzy phase. -/
def unmatched2 (df1 : List DetailedRec) (df2 : List SummaryRec) : List SummaryRec :=
  df2.filter fun s => !((exactKeys df1 df2).contains s.composite_key)

/-- The fuzzy merged rows: one per unmatched detailed row with an accepted
best match over the unmatched summary pool. -/
def fuzzyRows (df1 : List DetailedRec) (df2 : List SummaryRec) : List MergedRow :=
  (unmatched1 df1 df2).filterMap fun d =>
    (bestA d (unmatched2 df1 df2)).map fun p =>
      (⟨d, p.1, "fuzzy".data, p.2⟩ : MergedRow)

def merge_datasets (df1 : List DetailedRec) (df2 : List SummaryRec) :
    List MergedRow × List DetailedRec × List SummaryRec :=
  (exactRows df1 df2 ++ fuzzyRows df1 df2, unmatched1 df1 df2, unmatched2 df1 df2)

end DataMerger

namespace DataMerger2

open TaiwanScraper

/-- One row of the detailed dataset as src/DataMerger2.py consumes it: the
PublicationScraper output with the `title_cleaned` / `author_cleaned`
columns (present in this dataset, so the `row.get(...)` fallbacks do not
fire) plus the derived columns. -/
structure DetailedRec where
  subject : Option Str
  url : Option Str
  record_number : Option Str
  title : Option Str
  title_cleaned : Option Str
  author_cleaned : Option Str
  language : Option Str
  imprint : Option Str
  publication : Option Str
  extracted_year : Option Nat
  composite_key : Str
  simple_key : Str
deriving DecidableEq, Repr

/-- One row of the merged output of src/DataMerger2.py, modelled as the two
source records plus the match metadata, which now includes the per-field
similarity components. -/
structure MergedRow where
  detailed : DetailedRec
  summary : DataMerger.SummaryRec
  match_type : Str
  similarity_score : Score
  title_similarity : Score
  author_similarity : Score
deriving DecidableEq, Repr

/-- The Phase-1 inner join of src/DataMerger2.py, identical to the
DataMerger one; exact rows carry component similarities of 1.0. -/
def exactRows (df1 : List DetailedRec) (df2 : List DataMerger.SummaryRec) :
    List MergedRow :=
  df1.flatMap fun d =>
    (df2.filter fun s => s.composite_key == d.composite_key).map fun s =>
      ⟨d, s, "exact".data, ⟨1, 1⟩, ⟨1, 1⟩, ⟨1, 1⟩⟩

/-- Policy B title threshold, `title_similarity_threshold = 0.85`. -/
def thresholdTitle : Score := ⟨85, 100⟩

/-- Policy B author threshold, `author_similarity_threshold = 0.80`. -/
def thresholdAuthor : Score := ⟨80, 100⟩

/-- The Policy B inner scan of src/DataMerger2.py `merge_datasets`: the same
year gate as Policy A; title similarity on normalized `title_cleaned` vs
`title`, author similarity on normalized `author_cleaned` vs `author`;
the weighted combined score `0.7*title + 0.3*author`; a candidate takes over
exactly when the title similarity reaches 0.85, the author similarity
reaches 0.80, and the combined score strictly exceeds the best so far. -/
def stepB (d : DetailedRec) (best : Option (DataMerger.SummaryRec × Score × Score × Score))
    (s : DataMerger.SummaryRec) : Option (DataMerger.SummaryRec × Score × Score × Score) :=
  if DataMerger.truthyNat d.extracted_year && DataMerger.truthyNat s.year_int &&
      !(d.extracted_year == s.year_int) then best
  else
    let ts := DataMerger.similarity_score
      (DataMerger.normalize_text d.title_cleaned) (DataMerger.normalize_text s.title)
    let as := DataMerger.similarity_score
      (DataMerger.normalize_text d.author_cleaned) (DataMerger.normalize_text s.author)
    let comb := (ts.mul ⟨7, 10⟩).add (as.mul ⟨3, 10⟩)
    let bs : Score := match best with | none => ⟨0, 1⟩ | some p => p.2.1
    if thresholdTitle.ble ts && thresholdAuthor.ble as && bs.blt comb then
      some (s, comb, ts, as)
    else best

/-- The whole Policy B scan for one detailed row is a fold of `stepB` over
the unmatched summary pool. -/
def bestB (d : DetailedRec) (pool : List DataMerger.SummaryRec) :
    Option (DataMerger.SummaryRec × Score × Score × Score) :=
  pool.foldl (stepB d) none

/-- src/DataMerger2.py `merge_datasets`: the same two-phase structure as
src/DataMerger.py, with the Policy B dual-threshold fuzzy scan; the recorded
`similarity_score` of a fuzzy row is the combined score and the component
similarities of the accepted candidate are recorded alongside.  As in
DataMerger, the returned unmatched frames are the pre-fuzzy ones. -/
def exactKeys (df1 : List DetailedRec) (df2 : List DataMerger.SummaryRec) :
    List Str :=
  (exactRows df1 df2).map fun r => r.detailed.composite_key

/-- The unmatched detailed frame computed before the fuzzy phase. -/
def unmatched1 (df1 : List DetailedRec) (df2 : List DataMerger.SummaryRec) :
    List DetailedRec :=
  df1.filter fun d => !((exactKeys df1 df2).contains d.composite_key)

/-- The unmatched summary frame computed before the fuzzy phase. -/
def unmatched2 (df1 : List DetailedRec) (df2 : List DataMerger.SummaryRec) :
    List DataMerger.SummaryRec :=
  df2.filter fun s => !((exactKeys df1 df2).contains s.composite_key)

/-- The Policy B fuzzy merged rows, carrying the combined score and the two
component similarities of the accepted candidate. -/
def fuzzyRows (df1 : List DetailedRec) (df2 : List DataMerger.SummaryRec) :
    List MergedRow :=
  (unmatched1 df1 df2).filterMap fun d =>
    (bestB d (unmatched2 df1 df2)).map fun p =>
      (⟨d, p.1, "fuzzy".data, p.2.1, p.2.2.1, p.2.2.2⟩ : MergedRow)

def merge_datasets (df1 : List DetailedRec) (df2 : List DataMerger.SummaryRec) :
    List MergedRow × List DetailedRec × List DataMerger.SummaryRec :=
  (exactRows df1 df2 ++ fuzzyRows df1 df2, unmatched1 df1 df2, unmatched2 df1 df2)

end DataMerger2

namespace DataMerger4

open TaiwanScraper

/-- One row of the detailed dataset as src/DataMerger4.py consumes it:
`load_and_prepare_dataset1` has already replaced null `title_cleaned` /
`author_cleaned` by empty strings (`fillna('')`), so those two columns are
plain strings. -/
structure DetailedRec where
  subject : Option Str
  url : Option Str
  record_number : Option Str
  title : Option Str
  title_cleaned : Str
  author_cleaned : Str
  language : Option Str
  imprint : Option Str
  publication : Option Str
deriving DecidableEq, Repr

/-- One row of the summary dataset as src/DataMerger4.py consumes it, with
`title` and `author` already `fillna('')`-ed to plain strings. -/
structure SummaryRec where
  subject : Option Str
  url : Option Str
  title : Str
  author : Str
  publisher : Option Str
  year : Option Str
  call_number : Option Str
deriving DecidableEq, Repr

/-- One row of the merged output of src/DataMerger4.py, modelled as the two
source records plus the match metadata. -/
structure MergedRow where
  detailed : DetailedRec
  summary : SummaryRec
  match_type : Str
  similarity_score : Score
deriving DecidableEq, Repr

/-- Whether a detailed row and a summary row join in src/DataMerger4.py:
raw equality of `title_cleaned` with `title` and of `author_cleaned` with
`author` — no normalization of any kind is applied in this file. -/
def pairMatches (d : DetailedRec) (s : SummaryRec) : Bool :=
  d.title_cleaned == s.title && d.author_cleaned == s.author

/-- src/DataMerger4.py `merge_datasets`, line 58: a single inner join of df1
on `(title_cleaned, author_cleaned)` against df2 on `(title, author)` — with
relational cross-product semantics.  There is no fuzzy phase; every merged
row is tagged `exact` with score 1.0 (lines 82-83, which the run never
reaches — see `merge_datasets` below). -/
def matchedRows (df1 : List DetailedRec) (df2 : List SummaryRec) : List MergedRow :=
  df1.flatMap fun d =>
    (df2.filter fun s => pairMatches d s).map fun s =>
      (⟨d, s, "exact".data, ⟨1, 1⟩⟩ : MergedRow)

/-- The detailed-side key pairs occurring among the merged rows
(`merged_df[['title_cleaned', 'author_cleaned']]` of line 68;
`drop_duplicates` only affects multiplicity of the probe list, not
membership). -/
def pairs1 (df1 : List DetailedRec) (df2 : List SummaryRec) : List (Str × Str) :=
  (matchedRows df1 df2).map fun r => (r.detailed.title_cleaned, r.detailed.author_cleaned)

/-- The unmatched detailed frame (lines 69-70): rows whose pair is absent
from the merged rows. -/
def unmatched1 (df1 : List DetailedRec) (df2 : List SummaryRec) : List DetailedRec :=
  df1.filter fun d => !((pairs1 df1 df2).contains (d.title_cleaned, d.author_cleaned))

/-- Column names of the detailed table `books` that
`load_and_prepare_dataset1` reads: the keys of the `book_info` dictionary of
src/PublicationScraper11.py (lines 268-279, identical in
src/PublicationScraper14.py).  The table has NO `author` column — only
`author_cleaned`. -/
def df1Cols : List Str :=
  ["subject".data, "url".data, "record_number".data, "title".data,
    "title_cleaned".data, "author_cleaned".data, "language".data,
    "imprint".data, "publication".data]

/-- Column names of the summary table `books` that
`load_and_prepare_dataset2` reads: the keys of the `books_data` dictionaries
of src/TaiwanNCLScraper9.py (lines 222-229) plus the `subject` column added
before saving (line 335). -/
def df2Cols : List Str :=
  ["title".data, "url".data, "author".data, "publisher".data, "year".data,
    "call_number".data, "subject".data]

/-- The columns of the merged frame built at line 58: `pd.merge` with
`suffixes=('_detailed', '_summary')` renames a column if and only if its
name also appears in the other input.  Here only `subject`, `url` and
`title` overlap; df2's `author` is NOT renamed, so the merged frame has a
`title_summary` column but no `author_summary` column. -/
def mergedCols : List Str :=
  df1Cols.map (fun c => if df2Cols.contains c then c ++ "_detailed".data else c) ++
  df2Cols.map (fun c => if df1Cols.contains c then c ++ "_summary".data else c)

/-- `frame[[l1, ..., lk]]`: selecting a list of column labels yields the
labels when all are present and raises `KeyError` naming a missing label
otherwise. -/
def selectCols (cols wanted : List Str) : Except Str (List Str) :=
  match wanted.find? (fun c => !(cols.contains c)) with
  | some c => Except.error c
  | none => Except.ok wanted

/-- src/DataMerger4.py `merge_datasets` (lines 50-85): the merge (line 58)
and the detailed-side unmatched computation (lines 68-70) succeed, but line
75 selects the labels `title_summary` and `author_summary` from the merged
frame, and `author_summary` is not among `mergedCols`, so the selection
raises `KeyError` and the function never returns.  The `ok` branch carries
the result the code after line 75 would build had the selection succeeded —
the line-76 `isin` filter against the summary-side key pairs and the
line-85 triple — and is unreachable. -/
def merge_datasets (df1 : List DetailedRec) (df2 : List SummaryRec) :
    Except Str (List MergedRow × List DetailedRec × List SummaryRec) :=
  match selectCols mergedCols ["title_summary".data, "author_summary".data] with
  | Except.error c => Except.error c
  | Except.ok _ =>
    Except.ok (matchedRows df1 df2, unmatched1 df1 df2,
      df2.filter fun s => !(((matchedRows df1 df2).map
        fun r => (r.summary.title, r.summary.author)).contains (s.title, s.author)))

end DataMerger4

namespace SpecSide

open TaiwanScraper

/-- Accumulator worker for `digitRuns`: `acc` holds the reversed current
digit run. -/
def digitRunsAux : Str → Str → List Str
  | [], acc => if acc = [] then [] else [acc.reverse]
  | c :: rest, acc =>
    if DataMerger.pyIsDigit c then digitRunsAux rest (c :: acc)
    else if acc = [] then digitRunsAux rest []
    else acc.reverse :: digitRunsAux rest []

/-- Modelled from the spec wording of C5: the maximal runs of consecutive
decimal digits of a string, in order. -/
def digitRuns (t : Str) : List Str := digitRunsAux t []

/-- The numeric value of a digit run. -/
def runVal (r : Str) : Nat := r.foldl (fun acc c => 10 * acc + DataMerger.digitVal c) 0

/-- Modelled from the spec wording of C5: search for the first maximal run
of exactly 4 decimal digits; return its value when it lies in [1800, 2030],
otherwise null. -/
def extractYearRunSpec (t : Str) : Option Nat :=
  match (digitRuns t).find? (fun r => r.length == 4) with
  | some r => if 1800 ≤ runVal r ∧ runVal r ≤ 2030 then some (runVal r) else none
  | none => none

/-- Whether four consecutive decimal digits start at position `i`. -/
def fourDigitsAt (t : Str) (i : Nat) : Bool :=
  match t.drop i with
  | c1 :: c2 :: c3 :: c4 :: _ =>
    DataMerger.pyIsDigit c1 && DataMerger.pyIsDigit c2 &&
      DataMerger.pyIsDigit c3 && DataMerger.pyIsDigit c4
  | _ => false

/-- The value of the four-character window at position `i`. -/
def windowVal (t : Str) (i : Nat) : Nat :=
  match t.drop i with
  | c1 :: c2 :: c3 :: c4 :: _ => DataMerger.fourVal c1 c2 c3 c4
  | _ => 0

/-- The amended reading of C5, stated independently of the code's recursion:
take the smallest position at which four consecutive decimal digits start
(the window may sit inside a longer digit run) and return its value exactly
when it lies in [1800, 2030]. -/
def extractYearAmended (t : Str) : Option Nat :=
  match (List.range t.length).find? (fun i => fourDigitsAt t i) with
  | some i => if 1800 ≤ windowVal t i ∧ windowVal t i ≤ 2030 then some (windowVal t i) else none
  | none => none

/-- The authorship-marker characters exactly as the C9 spec sentence lists
them: 著 編 主編 撰 写 作者, read as a character set. -/
def claimMarkers : List Char := ['著', '編', '主', '撰', '写', '作', '者']

/-- Modelled from the spec wording of C9: strip the trailing run of marker
characters (not just one character). -/
def stripRunMarkers (m : List Char) (s : Str) : Str :=
  (s.reverse.dropWhile (fun c => m.contains c)).reverse

/-- The first-author delimiters of `extract_author_from_text`: the ASCII
comma, the full-width semicolon and the ASCII semicolon. -/
def isDelim (c : Char) : Bool := c = ',' || c = '；' || c = ';'

/-- Truncate at the first occurrence of any delimiter, in a single pass
(the first-author-wins policy stated by the spec). -/
def truncFirstDelim (s : Str) : Str := s.takeWhile (fun c => !isDelim c)

/-- Modelled from the spec wording of C9: run-strip the claim's marker set,
truncate at the first delimiter, trim. -/
def extractAuthorClaimC9 (t : Str) : Str :=
  pyStrip (truncFirstDelim (stripRunMarkers claimMarkers t))

/-- Whether a string avoids two consecutive plain spaces.  Idempotence of
`normalize_text` holds exactly on outputs of this shape (plus the sentinel
side condition); punctuation removal can merge two single spaces, which the
next normalization pass then collapses. -/
def noDoubleSpace : Str → Bool
  | c :: d :: rest => !(c = ' ' && d = ' ') && noDoubleSpace (d :: rest)
  | _ => true

end SpecSide

namespace Examples

open TaiwanScraper DataMerger

/-- A detailed record carrying the spec's §8 scenario title, year 1999 and
the composite key the load step derives for it (empty author side). -/
def dZh : DetailedRec :=
  { subject := none, url := some "d1".data, record_number := none,
    title := some "中國歷史".data, language := none, imprint := none,
    publication := none, extracted_year := some 1999,
    composite_key := create_composite_key (some "中國歷史".data) (some []) (some 1999),
    simple_key := "中國歷史|1999".data }

/-- The matching summary record of the §8 scenario: same title and year but
author 王大明, so its composite key differs from `dZh`'s. -/
def sZh : SummaryRec :=
  { subject := none, url := some "s1".data, title := some "中國歷史".data,
    author := some "王大明".data, publisher := none, year := some "1999".data,
    call_number := none, year_int := some 1999,
    composite_key :=
      create_composite_key (some "中國歷史".data) (some "王大明".data) (some 1999),
    simple_key := "中國歷史|1999".data }

/-- The fuzzy merged row that `merge_datasets [dZh] [sZh]` produces. -/
def rowZh : MergedRow := ⟨dZh, sZh, "fuzzy".data, ⟨8, 8⟩⟩

/-- The shared composite key of the C3 collision scenario. -/
def kShi : Str := create_composite_key (some "史記".data) (some []) (some 1999)

/-- First detailed record of the collision scenario. -/
def dShiA : DetailedRec :=
  { subject := none, url := some "a".data, record_number := none,
    title := some "史記".data, language := none, imprint := none,
    publication := none, extracted_year := some 1999,
    composite_key := kShi, simple_key := "史記|1999".data }

/-- Second detailed record of the collision scenario, a distinct row with
the same composite key. -/
def dShiB : DetailedRec :=
  { subject := none, url := some "b".data, record_number := none,
    title := some "史記".data, language := none, imprint := none,
    publication := none, extracted_year := some 1999,
    composite_key := kShi, simple_key := "史記|1999".data }

/-- The single summary record sharing the collision key. -/
def sShi : SummaryRec :=
  { subject := none, url := some "c".data, title := some "史記".data,
    author := some [], publisher := none, year := some "1999".data,
    call_number := none, year_int := some 1999,
    composite_key := kShi, simple_key := "史記|1999".data }

/-- A Policy B detailed record whose cleaned fields match `s2W`'s fields
exactly but whose composite key differs. -/
def d2W : DataMerger2.DetailedRec :=
  { subject := none, url := none, record_number := none,
    title := some "資訊概論 / 陳小華著".data,
    title_cleaned := some "資訊概論".data, author_cleaned := some "陳小華".data,
    language := none, imprint := none, publication := none,
    extracted_year := some 2001, composite_key := "kd".data,
    simple_key := "資訊概論|2001".data }

/-- The Policy B summary partner of `d2W`. -/
def s2W : SummaryRec :=
  { subject := none, url := none, title := some "資訊概論".data,
    author := some "陳小華".data, publisher := none, year := some "2001".data,
    call_number := none, year_int := some 2001, composite_key := "ks".data,
    simple_key := "資訊概論|2001".data }

/-- The fuzzy merged row that `DataMerger2.merge_datasets [d2W] [s2W]`
produces: both component similarities are 1 and the combined score is
`0.7 + 0.3 = 1`. -/
def row2W : DataMerger2.MergedRow :=
  ⟨d2W, s2W, "fuzzy".data, ⟨4800, 4800⟩, ⟨8, 8⟩, ⟨6, 6⟩⟩

/-- A DataMerger4 detailed record whose cleaned title is upper-case. -/
def d4X : DataMerger4.DetailedRec :=
  { subject := none, url := none, record_number := none, title := none,
    title_cleaned := "A".data, author_cleaned := [],
    language := none, imprint := none, publication := none }

/-- A DataMerger4 summary record whose title is the lower-case form of
`d4X`'s cleaned title; the two normalize identically but differ raw. -/
def s4X : DataMerger4.SummaryRec :=
  { subject := none, url := none, title := "a".data, author := [],
    publisher := none, year := none, call_number := none }

end Examples

/-!
Theorems.  General-purpose helper lemmas come first, then one theorem per
claim (with counterexamples and witnesses where the claim's status needs
them).
-/

namespace TaiwanScraper

theorem takeWhile_eq_self_of_all {p : Char → Bool} :
    ∀ {s : Str}, (∀ c ∈ s, p c = true) → s.takeWhile p = s := by
  intro s h
  induction s with
  | nil => rfl
  | cons c rest ih =>
    simp only [List.takeWhile_cons, h c (by simp), if_true]
    simp [ih fun d hd => h d (by simp [hd])]

theorem contains_false_not_mem {d : Char} {s : Str} (h : s.contains d = false) :
    d ∉ s := by
  induction s with
  | nil => simp
  | cons a rest ih =>
    simp only [List.contains_cons, Bool.or_eq_false_iff, beq_eq_false_iff_ne, ne_eq] at h
    simp only [List.mem_cons, not_or]
    exact ⟨h.1, ih h.2⟩

end TaiwanScraper

namespace DataMerger

open TaiwanScraper

theorem cutAt_eq_takeWhile (d : Char) (s : Str) :
    cutAt d s = s.takeWhile (fun c => c != d) := by
  unfold cutAt
  split
  · rfl
  · rename_i h
    refine (takeWhile_eq_self_of_all ?_).symm
    intro c hc
    have hd : d ∉ s := contains_false_not_mem (by simpa using h)
    simp only [bne_iff_ne, ne_eq]
    rintro rfl
    exact hd hc

theorem fourDigitsAt_short (t : Str) (i : Nat) (h : t.length < 4) :
    SpecSide.fourDigitsAt t i = false := by
  have hlen : (t.drop i).length < 4 := by
    have := List.length_drop i t
    omega
  unfold SpecSide.fourDigitsAt
  rcases hdrop : t.drop i with _ | ⟨a, _ | ⟨b, _ | ⟨c, _ | ⟨e, l⟩⟩⟩⟩ <;>
    simp_all
  omega

theorem fourDigitsAt_cons_succ (c : Char) (t : Str) (i : Nat) :
    SpecSide.fourDigitsAt (c :: t) (i + 1) = SpecSide.fourDigitsAt t i := by
  unfold SpecSide.fourDigitsAt
  rw [List.drop_succ_cons]

theorem windowVal_cons_succ (c : Char) (t : Str) (i : Nat) :
    SpecSide.windowVal (c :: t) (i + 1) = SpecSide.windowVal t i := by
  unfold SpecSide.windowVal
  rw [List.drop_succ_cons]

theorem findFourDigits_cons4 (c1 c2 c3 c4 : Char) (r : Str) :
    findFourDigits (c1 :: c2 :: c3 :: c4 :: r) =
      if pyIsDigit c1 && pyIsDigit c2 && pyIsDigit c3 && pyIsDigit c4 then
        some (c1, c2, c3, c4)
      else findFourDigits (c2 :: c3 :: c4 :: r) := rfl

theorem fourDigitsAt_cons4 (c1 c2 c3 c4 : Char) (r : Str) :
    SpecSide.fourDigitsAt (c1 :: c2 :: c3 :: c4 :: r) 0 =
      (pyIsDigit c1 && pyIsDigit c2 && pyIsDigit c3 && pyIsDigit c4) := rfl

theorem findFour_vs_findIdx : ∀ t : Str,
    (findFourDigits t).map (fun q => fourVal q.1 q.2.1 q.2.2.1 q.2.2.2) =
      ((List.range t.length).find? (fun i => SpecSide.fourDigitsAt t i)).map
        (SpecSide.windowVal t) := by
  intro t
  induction t with
  | nil => rfl
  | cons c1 rest ih =>
    match hr : rest with
    | [] => rfl
    | [c2] => rfl
    | [c2, c3] => rfl
    | c2 :: c3 :: c4 :: rest2 =>
      rw [List.length_cons, List.range_succ_eq_map, findFourDigits_cons4]
      by_cases hd : (pyIsDigit c1 && pyIsDigit c2 && pyIsDigit c3 && pyIsDigit c4) = true
      · rw [List.find?_cons_of_pos _ (by rw [fourDigitsAt_cons4]; exact hd), if_pos hd]
        rfl
      · rw [List.find?_cons_of_neg _ (by rw [fourDigitsAt_cons4]; simp [hd]),
          if_neg hd, List.find?_map]
        have hpred : ((fun i => SpecSide.fourDigitsAt (c1 :: c2 :: c3 :: c4 :: rest2) i) ∘
            Nat.succ) = fun i => SpecSide.fourDigitsAt (c2 :: c3 :: c4 :: rest2) i := by
          funext i
          simp only [Function.comp]
          exact fourDigitsAt_cons_succ c1 _ i
        rw [hpred, Option.map_map]
        have hwin : (SpecSide.windowVal (c1 :: c2 :: c3 :: c4 :: rest2)) ∘ Nat.succ =
            SpecSide.windowVal (c2 :: c3 :: c4 :: rest2) := by
          funext i
          simp only [Function.comp]
          exact windowVal_cons_succ c1 _ i
        rw [hwin]
        exact ih

theorem extractYearAmended_vs_code (t : Str) :
    SpecSide.extractYearAmended t =
      (match findFourDigits t with
        | some (c1, c2, c3, c4) =>
          if 1800 ≤ fourVal c1 c2 c3 c4 ∧ fourVal c1 c2 c3 c4 ≤ 2030 then
            some (fourVal c1 c2 c3 c4)
          else none
        | none => none) := by
  have h := findFour_vs_findIdx t
  unfold SpecSide.extractYearAmended
  cases hf : findFourDigits t with
  | none =>
    rw [hf] at h
    cases hfind : (List.range t.length).find? (fun i => SpecSide.fourDigitsAt t i) with
    | none => rfl
    | some i => rw [hfind] at h; exact Option.noConfusion h
  | some q =>
    rw [hf] at h
    cases hfind : (List.range t.length).find? (fun i => SpecSide.fourDigitsAt t i) with
    | none => rw [hfind] at h; exact Option.noConfusion h
    | some i =>
      rw [hfind] at h
      injection h with h
      obtain ⟨c1, c2, c3, c4⟩ := q
      dsimp only at h ⊢
      rw [← h]

end DataMerger

namespace DataMerger

open TaiwanScraper

theorem cut_seq_eq_trunc (s : Str) :
    cutAt ';' (cutAt '；' (cutAt ',' s)) = SpecSide.truncFirstDelim s := by
  rw [cutAt_eq_takeWhile, cutAt_eq_takeWhile, cutAt_eq_takeWhile,
    List.takeWhile_takeWhile, List.takeWhile_takeWhile]
  unfold SpecSide.truncFirstDelim
  congr 1
  funext c
  by_cases h1 : c = ',' <;> by_cases h2 : c = '；' <;> by_cases h3 : c = ';' <;>
    simp [SpecSide.isDelim, h1, h2, h3]

end DataMerger

/-- C5, counterexample: on the input "18005" — a five-digit run, hence with
no run of exactly four digits — the claimed search for "the first run of
exactly 4 decimal digits" yields null, but `extract_year_from_text` returns
1800, because the regex `(\d{4})` takes the first four consecutive digits
without any boundary requirement. -/
theorem C5_counterexample :
    DataMerger.extract_year_from_text (some "18005".data) = some 1800 ∧
    SpecSide.extractYearRunSpec "18005".data = none :=
  ⟨by decide, by decide⟩

/-- C5, amended: `extract_year_from_text` returns the value of the first
window of four consecutive decimal digits (the window may sit inside a
longer digit run) when that value lies in [1800, 2030], and null otherwise;
the claim's three concrete examples hold, and null/None input yields null
rather than an error. -/
theorem C5_first_window_year :
    (∀ t : TaiwanScraper.Str,
       DataMerger.extract_year_from_text (some t) = SpecSide.extractYearAmended t) ∧
    DataMerger.extract_year_from_text (some "出版於1999年".data) = some 1999 ∧
    DataMerger.extract_year_from_text (some "no year here".data) = none ∧
    DataMerger.extract_year_from_text (some "year 1750".data) = none ∧
    DataMerger.extract_year_from_text none = none := by
  refine ⟨?_, by decide, by decide, by decide, rfl⟩
  intro t
  rw [DataMerger.extractYearAmended_vs_code]
  by_cases hm : t = DataMerger.missingStr
  · subst hm
    decide
  · unfold DataMerger.extract_year_from_text
    dsimp only
    rw [if_neg hm]

/-- C7, counterexample: the sentinel test in `normalize_text` is the exact
comparison `text == "missing"`, not a case-insensitive trimmed one: the
input "Missing" normalizes to the string "missing", not to the empty
string. -/
theorem C7_counterexample :
    DataMerger.normalize_text (some "Missing".data) = "missing".data ∧
    "missing".data ≠ ([] : TaiwanScraper.Str) :=
  ⟨by decide, by decide⟩

/-- C7, amended: `normalize_text` maps null, the empty string, and the
exact lower-case untrimmed sentinel "missing" to the empty string; a
whitespace-padded or capitalized sentinel is not recognized and comes out
as the text "missing" instead. -/
theorem C7_sentinel_exact :
    DataMerger.normalize_text none = [] ∧
    DataMerger.normalize_text (some []) = [] ∧
    DataMerger.normalize_text (some "missing".data) = [] ∧
    DataMerger.normalize_text (some " missing ".data) = "missing".data ∧
    DataMerger.normalize_text (some "MISSING".data) = "missing".data :=
  ⟨rfl, by decide, by decide, by decide, by decide⟩

/-- C9, counterexample: on the input 王著者, whose last two characters both
belong to the authorship-marker sets, stripping "a trailing character/run
drawn from the full set" as the claim states yields 王, but both
implementations remove at most the single last character (the anchored
single-character class `[...]$` matches once), yielding 王著. -/
theorem C9_counterexample :
    DataMerger.extract_author_from_text (some "王著者".data) = "王著".data ∧
    DataMerger2.extract_author_from_text (some "王著者".data) = "王著".data ∧
    SpecSide.extractAuthorClaimC9 "王著者".data = "王".data ∧
    "王著".data ≠ "王".data :=
  ⟨by decide, by decide, by decide, by decide⟩

/-- C9, amended: for non-sentinel input both extractors strip at most ONE
trailing character from their per-file marker set (DataMerger.py uses
著编主撰写作者 with only the simplified 编; DataMerger2.py additionally has
the traditional 編), then truncate at the first comma / full-width
semicolon / half-width semicolon in a single first-delimiter-wins pass, and
finally trim whitespace; null and the sentinel "missing" yield the empty
string. -/
theorem C9_single_marker_strip :
    (∀ t : TaiwanScraper.Str, t ≠ DataMerger.missingStr →
       DataMerger.extract_author_from_text (some t) =
         TaiwanScraper.pyStrip (SpecSide.truncFirstDelim
           (DataMerger.stripOneMarker DataMerger.markerSet1 t))) ∧
    (∀ t : TaiwanScraper.Str, t ≠ DataMerger.missingStr →
       DataMerger2.extract_author_from_text (some t) =
         TaiwanScraper.pyStrip (SpecSide.truncFirstDelim
           (DataMerger.stripOneMarker DataMerger.markerSet2 t))) ∧
    DataMerger.extract_author_from_text none = [] ∧
    DataMerger.extract_author_from_text (some DataMerger.missingStr) = [] ∧
    DataMerger2.extract_author_from_text none = [] ∧
    DataMerger2.extract_author_from_text (some DataMerger.missingStr) = [] := by
  refine ⟨?_, ?_, rfl, by decide, rfl, by decide⟩
  · intro t hm
    unfold DataMerger.extract_author_from_text
    dsimp only
    rw [if_neg hm, DataMerger.cut_seq_eq_trunc]
  · intro t hm
    unfold DataMerger2.extract_author_from_text
    dsimp only
    rw [if_neg hm, DataMerger.cut_seq_eq_trunc]

/-- C9, witness: the amended statement evaluated on the concrete input
"張三, 李四著". -/
theorem C9_single_marker_strip_witness :
    DataMerger.extract_author_from_text (some "張三, 李四著".data) =
      TaiwanScraper.pyStrip (SpecSide.truncFirstDelim
        (DataMerger.stripOneMarker DataMerger.markerSet1 "張三, 李四著".data)) :=
  C9_single_marker_strip.1 _ (by decide)

/-- C10, counterexample: the parenthetical example of the claim is wrong —
title "a|b" with empty author gives the key "a|b||2000" while title "a"
with author "b" gives "a|b|2000", which differ. -/
theorem C10_counterexample :
    DataMerger.create_composite_key (some "a|b".data) (some []) (some 2000) ≠
      DataMerger.create_composite_key (some "a".data) (some "b".data) (some 2000) := by
  decide

/-- C10, amended: composite keys are indeed not injective because the "|"
separator is not escaped, but a correct witness is title "a|b" with author
"c" against title "a" with author "b|c" (same year): distinct field triples
with the identical key "a|b|c|2000". -/
theorem C10_key_collision :
    DataMerger.create_composite_key (some "a|b".data) (some "c".data) (some 2000) =
      DataMerger.create_composite_key (some "a".data) (some "b|c".data) (some 2000) ∧
    ("a|b".data : TaiwanScraper.Str) ≠ "a".data :=
  ⟨by decide, by decide⟩

namespace TaiwanScraper.Score

theorem toRat_nonneg (x : Score) : 0 ≤ x.toRat := by
  unfold toRat
  positivity

theorem blt_toRat {x y : Score} (hx : 0 < x.den) (hy : 0 < y.den)
    (h : x.blt y = true) : x.toRat < y.toRat := by
  unfold blt at h
  unfold toRat
  rw [div_lt_div_iff₀ (by exact_mod_cast hx) (by exact_mod_cast hy)]
  exact_mod_cast (by simpa using h : x.num * y.den < y.num * x.den)

theorem ble_toRat {x y : Score} (hx : 0 < x.den) (hy : 0 < y.den)
    (h : x.ble y = true) : x.toRat ≤ y.toRat := by
  unfold ble at h
  unfold toRat
  rw [div_le_div_iff₀ (by exact_mod_cast hx) (by exact_mod_cast hy)]
  exact_mod_cast (by simpa using h : x.num * y.den ≤ y.num * x.den)

theorem toRat_mul (x y : Score) : (x.mul y).toRat = x.toRat * y.toRat := by
  unfold mul toRat
  push_cast
  rw [div_mul_div_comm]

theorem toRat_add {x y : Score} (hx : x.den ≠ 0) (hy : y.den ≠ 0) :
    (x.add y).toRat = x.toRat + y.toRat := by
  unfold add toRat
  push_cast
  rw [div_add_div _ _ (by exact_mod_cast hx) (by exact_mod_cast hy)]
  congr 1
  ring

end TaiwanScraper.Score

namespace DataMerger

open TaiwanScraper

theorem similarity_den_pos (s1 s2 : Str) : 0 < (similarity_score s1 s2).den := by
  unfold similarity_score
  split
  · exact Nat.one_pos
  · rename_i h
    push_neg at h
    have := List.length_pos.mpr h.1
    simp only
    omega

theorem mem_exactRows {df1 : List DetailedRec} {df2 : List SummaryRec} {r : MergedRow} :
    r ∈ exactRows df1 df2 ↔
      ∃ d, d ∈ df1 ∧ ∃ s, (s ∈ df2 ∧ s.composite_key = d.composite_key) ∧
        r = ⟨d, s, "exact".data, ⟨1, 1⟩⟩ := by
  unfold exactRows
  simp only [List.mem_flatMap, List.mem_map, List.mem_filter, beq_iff_eq]
  constructor
  · rintro ⟨d, hd, s, ⟨hs, hk⟩, hr⟩
    exact ⟨d, hd, s, ⟨hs, hk⟩, hr.symm⟩
  · rintro ⟨d, hd, s, ⟨hs, hk⟩, hr⟩
    exact ⟨d, hd, s, ⟨hs, hk⟩, hr.symm⟩

theorem exactKeys_contains {df1 : List DetailedRec} {df2 : List SummaryRec} {k : Str} :
    (exactKeys df1 df2).contains k = true ↔
      ∃ d, d ∈ df1 ∧ ∃ s, s ∈ df2 ∧ s.composite_key = d.composite_key ∧
        d.composite_key = k := by
  unfold exactKeys
  rw [show ((exactRows df1 df2).map fun r => r.detailed.composite_key).contains k = true ↔
      k ∈ (exactRows df1 df2).map fun r => r.detailed.composite_key from by simp]
  rw [List.mem_map]
  constructor
  · rintro ⟨r, hr, hk⟩
    obtain ⟨d, hd, s, ⟨hs, hks⟩, rfl⟩ := mem_exactRows.mp hr
    exact ⟨d, hd, s, hs, hks, hk⟩
  · rintro ⟨d, hd, s, hs, hks, hk⟩
    exact ⟨⟨d, s, "exact".data, ⟨1, 1⟩⟩, mem_exactRows.mpr ⟨d, hd, s, ⟨hs, hks⟩, rfl⟩, hk⟩

theorem mem_unmatched1 {df1 : List DetailedRec} {df2 : List SummaryRec} {d : DetailedRec} :
    d ∈ unmatched1 df1 df2 ↔
      d ∈ df1 ∧ ¬∃ s ∈ df2, s.composite_key = d.composite_key := by
  unfold unmatched1
  rw [List.mem_filter, Bool.not_eq_true']
  constructor
  · rintro ⟨hd, hc⟩
    refine ⟨hd, ?_⟩
    rintro ⟨s, hs, hk⟩
    rw [exactKeys_contains.mpr ⟨d, hd, s, hs, hk, rfl⟩] at hc
    cases hc
  · rintro ⟨hd, hns⟩
    refine ⟨hd, ?_⟩
    cases hcon : (exactKeys df1 df2).contains d.composite_key with
    | false => rfl
    | true =>
      obtain ⟨d2, _, s, hs, hk1, hk2⟩ := exactKeys_contains.mp hcon
      exact absurd ⟨s, hs, by rw [hk1, hk2]⟩ hns

theorem mem_unmatched2 {df1 : List DetailedRec} {df2 : List SummaryRec} {s : SummaryRec} :
    s ∈ unmatched2 df1 df2 ↔
      s ∈ df2 ∧ ¬∃ d ∈ df1, d.composite_key = s.composite_key := by
  unfold unmatched2
  rw [List.mem_filter, Bool.not_eq_true']
  constructor
  · rintro ⟨hs, hc⟩
    refine ⟨hs, ?_⟩
    rintro ⟨d, hd, hk⟩
    rw [exactKeys_contains.mpr ⟨d, hd, s, hs, hk.symm, hk⟩] at hc
    cases hc
  · rintro ⟨hs, hnd⟩
    refine ⟨hs, ?_⟩
    cases hcon : (exactKeys df1 df2).contains s.composite_key with
    | false => rfl
    | true =>
      obtain ⟨d, hd, s2, _, hk1, hk2⟩ := exactKeys_contains.mp hcon
      exact absurd ⟨d, hd, hk2⟩ hnd

theorem foldl_stepA (d : DetailedRec) :
    ∀ (pool : List SummaryRec) (acc : Option (SummaryRec × Score))
      (p : SummaryRec × Score), pool.foldl (stepA d) acc = some p →
      acc = some p ∨
        (p.1 ∈ pool ∧ thresholdA.blt p.2 = true ∧ 0 < p.2.den) := by
  intro pool
  induction pool with
  | nil => exact fun acc p h => Or.inl h
  | cons s rest ih =>
    intro acc p h
    rw [List.foldl_cons] at h
    rcases ih _ p h with h1 | h2
    · unfold stepA at h1
      split at h1
      · exact Or.inl h1
      · dsimp only at h1
        split at h1
        · rename_i hcond
          injection h1 with h1
          rw [Bool.and_eq_true] at hcond
          refine Or.inr ⟨?_, ?_, ?_⟩
          · rw [← h1]; simp
          · rw [← h1]; exact hcond.1
          · rw [← h1]; exact DataMerger.similarity_den_pos _ _
        · exact Or.inl h1
    · exact Or.inr ⟨by simp [h2.1], h2.2.1, h2.2.2⟩

theorem bestA_spec {d : DetailedRec} {pool : List SummaryRec} {p : SummaryRec × Score}
    (h : bestA d pool = some p) :
    p.1 ∈ pool ∧ thresholdA.blt p.2 = true ∧ 0 < p.2.den := by
  rcases foldl_stepA d pool none p h with h1 | h2
  · exact Option.noConfusion h1
  · exact h2

theorem mem_fuzzyRows {df1 : List DetailedRec} {df2 : List SummaryRec} {r : MergedRow} :
    r ∈ fuzzyRows df1 df2 ↔
      ∃ d ∈ unmatched1 df1 df2, ∃ p, bestA d (unmatched2 df1 df2) = some p ∧
        r = ⟨d, p.1, "fuzzy".data, p.2⟩ := by
  unfold fuzzyRows
  rw [List.mem_filterMap]
  constructor
  · rintro ⟨d, hd, hmap⟩
    rw [Option.map_eq_some'] at hmap
    obtain ⟨p, hp, hr⟩ := hmap
    exact ⟨d, hd, p, hp, hr.symm⟩
  · rintro ⟨d, hd, p, hp, hr⟩
    exact ⟨d, hd, by rw [hp, hr]; rfl⟩

end DataMerger

namespace DataMerger2

open TaiwanScraper

theorem mem_exactRowsB {df1 : List DetailedRec} {df2 : List DataMerger.SummaryRec}
    {r : MergedRow} :
    r ∈ exactRows df1 df2 ↔
      ∃ d, d ∈ df1 ∧ ∃ s, (s ∈ df2 ∧ s.composite_key = d.composite_key) ∧
        r = ⟨d, s, "exact".data, ⟨1, 1⟩, ⟨1, 1⟩, ⟨1, 1⟩⟩ := by
  unfold exactRows
  simp only [List.mem_flatMap, List.mem_map, List.mem_filter, beq_iff_eq]
  constructor
  · rintro ⟨d, hd, s, ⟨hs, hk⟩, hr⟩
    exact ⟨d, hd, s, ⟨hs, hk⟩, hr.symm⟩
  · rintro ⟨d, hd, s, ⟨hs, hk⟩, hr⟩
    exact ⟨d, hd, s, ⟨hs, hk⟩, hr.symm⟩

theorem exactKeys_containsB {df1 : List DetailedRec} {df2 : List DataMerger.SummaryRec}
    {k : Str} :
    (exactKeys df1 df2).contains k = true ↔
      ∃ d, d ∈ df1 ∧ ∃ s, s ∈ df2 ∧ s.composite_key = d.composite_key ∧
        d.composite_key = k := by
  unfold exactKeys
  rw [show ((exactRows df1 df2).map fun r => r.detailed.composite_key).contains k = true ↔
      k ∈ (exactRows df1 df2).map fun r => r.detailed.composite_key from by simp]
  rw [List.mem_map]
  constructor
  · rintro ⟨r, hr, hk⟩
    obtain ⟨d, hd, s, ⟨hs, hks⟩, rfl⟩ := mem_exactRowsB.mp hr
    exact ⟨d, hd, s, hs, hks, hk⟩
  · rintro ⟨d, hd, s, hs, hks, hk⟩
    exact ⟨⟨d, s, "exact".data, ⟨1, 1⟩, ⟨1, 1⟩, ⟨1, 1⟩⟩,
      mem_exactRowsB.mpr ⟨d, hd, s, ⟨hs, hks⟩, rfl⟩, hk⟩

theorem mem_unmatched1B {df1 : List DetailedRec} {df2 : List DataMerger.SummaryRec}
    {d : DetailedRec} :
    d ∈ unmatched1 df1 df2 ↔
      d ∈ df1 ∧ ¬∃ s ∈ df2, s.composite_key = d.composite_key := by
  unfold unmatched1
  rw [List.mem_filter, Bool.not_eq_true']
  constructor
  · rintro ⟨hd, hc⟩
    refine ⟨hd, ?_⟩
    rintro ⟨s, hs, hk⟩
    rw [exactKeys_containsB.mpr ⟨d, hd, s, hs, hk, rfl⟩] at hc
    cases hc
  · rintro ⟨hd, hns⟩
    refine ⟨hd, ?_⟩
    cases hcon : (exactKeys df1 df2).contains d.composite_key with
    | false => rfl
    | true =>
      obtain ⟨d2, _, s, hs, hk1, hk2⟩ := exactKeys_containsB.mp hcon
      exact absurd ⟨s, hs, by rw [hk1, hk2]⟩ hns

theorem mem_unmatched2B {df1 : List DetailedRec} {df2 : List DataMerger.SummaryRec}
    {s : DataMerger.SummaryRec} :
    s ∈ unmatched2 df1 df2 ↔
      s ∈ df2 ∧ ¬∃ d ∈ df1, d.composite_key = s.composite_key := by
  unfold unmatched2
  rw [List.mem_filter, Bool.not_eq_true']
  constructor
  · rintro ⟨hs, hc⟩
    refine ⟨hs, ?_⟩
    rintro ⟨d, hd, hk⟩
    rw [exactKeys_containsB.mpr ⟨d, hd, s, hs, hk.symm, hk⟩] at hc
    cases hc
  · rintro ⟨hs, hnd⟩
    refine ⟨hs, ?_⟩
    cases hcon : (exactKeys df1 df2).contains s.composite_key with
    | false => rfl
    | true =>
      obtain ⟨d, hd, s2, _, hk1, hk2⟩ := exactKeys_containsB.mp hcon
      exact absurd ⟨d, hd, hk2⟩ hnd

theorem foldl_stepB (d : DetailedRec) :
    ∀ (pool : List DataMerger.SummaryRec)
      (acc : Option (DataMerger.SummaryRec × Score × Score × Score))
      (p : DataMerger.SummaryRec × Score × Score × Score),
      pool.foldl (stepB d) acc = some p →
      acc = some p ∨
        (p.1 ∈ pool ∧ thresholdTitle.ble p.2.2.1 = true ∧
          thresholdAuthor.ble p.2.2.2 = true ∧
          p.2.1 = (p.2.2.1.mul ⟨7, 10⟩).add (p.2.2.2.mul ⟨3, 10⟩) ∧
          0 < p.2.2.1.den ∧ 0 < p.2.2.2.den) := by
  intro pool
  induction pool with
  | nil => exact fun acc p h => Or.inl h
  | cons s rest ih =>
    intro acc p h
    rw [List.foldl_cons] at h
    rcases ih _ p h with h1 | h2
    · unfold stepB at h1
      split at h1
      · exact Or.inl h1
      · dsimp only at h1
        split at h1
        · rename_i hcond
          injection h1 with h1
          rw [Bool.and_eq_true, Bool.and_eq_true] at hcond
          refine Or.inr ⟨?_, ?_, ?_, ?_, ?_, ?_⟩
          · rw [← h1]; simp
          · rw [← h1]; exact hcond.1.1
          · rw [← h1]; exact hcond.1.2
          · rw [← h1]
          · rw [← h1]; exact DataMerger.similarity_den_pos _ _
          · rw [← h1]; exact DataMerger.similarity_den_pos _ _
        · exact Or.inl h1
    · exact Or.inr ⟨by simp [h2.1], h2.2.1, h2.2.2.1, h2.2.2.2.1, h2.2.2.2.2⟩

theorem bestB_spec {d : DetailedRec} {pool : List DataMerger.SummaryRec}
    {p : DataMerger.SummaryRec × Score × Score × Score}
    (h : bestB d pool = some p) :
    p.1 ∈ pool ∧ thresholdTitle.ble p.2.2.1 = true ∧
      thresholdAuthor.ble p.2.2.2 = true ∧
      p.2.1 = (p.2.2.1.mul ⟨7, 10⟩).add (p.2.2.2.mul ⟨3, 10⟩) ∧
      0 < p.2.2.1.den ∧ 0 < p.2.2.2.den := by
  rcases foldl_stepB d pool none p h with h1 | h2
  · exact Option.noConfusion h1
  · exact h2

theorem mem_fuzzyRowsB {df1 : List DetailedRec} {df2 : List DataMerger.SummaryRec}
    {r : MergedRow} :
    r ∈ fuzzyRows df1 df2 ↔
      ∃ d ∈ unmatched1 df1 df2, ∃ p, bestB d (unmatched2 df1 df2) = some p ∧
        r = ⟨d, p.1, "fuzzy".data, p.2.1, p.2.2.1, p.2.2.2⟩ := by
  unfold fuzzyRows
  rw [List.mem_filterMap]
  constructor
  · rintro ⟨d, hd, hmap⟩
    rw [Option.map_eq_some'] at hmap
    obtain ⟨p, hp, hr⟩ := hmap
    exact ⟨d, hd, p, hp, hr.symm⟩
  · rintro ⟨d, hd, p, hp, hr⟩
    exact ⟨d, hd, by rw [hp, hr]; rfl⟩

end DataMerger2

namespace DataMerger4

open TaiwanScraper

theorem mem_matchedRows {df1 : List DetailedRec} {df2 : List SummaryRec}
    {r : MergedRow} :
    r ∈ matchedRows df1 df2 ↔
      ∃ d, d ∈ df1 ∧ ∃ s, (s ∈ df2 ∧ pairMatches d s = true) ∧
        r = ⟨d, s, "exact".data, ⟨1, 1⟩⟩ := by
  unfold matchedRows
  simp only [List.mem_flatMap, List.mem_map, List.mem_filter]
  constructor
  · rintro ⟨d, hd, s, ⟨hs, hk⟩, hr⟩
    exact ⟨d, hd, s, ⟨hs, hk⟩, hr.symm⟩
  · rintro ⟨d, hd, s, ⟨hs, hk⟩, hr⟩
    exact ⟨d, hd, s, ⟨hs, hk⟩, hr.symm⟩

theorem pairMatches_of_pair_eq {d d2 : DetailedRec} {s : SummaryRec}
    (h1 : d2.title_cleaned = d.title_cleaned) (h2 : d2.author_cleaned = d.author_cleaned)
    (h : pairMatches d2 s = true) : pairMatches d s = true := by
  unfold pairMatches at h ⊢
  rw [← h1, ← h2]
  exact h

theorem pairs1_contains {df1 : List DetailedRec} {df2 : List SummaryRec}
    {q : Str × Str} :
    (pairs1 df1 df2).contains q = true ↔
      ∃ d, d ∈ df1 ∧ (d.title_cleaned, d.author_cleaned) = q ∧
        ∃ s ∈ df2, pairMatches d s = true := by
  unfold pairs1
  rw [show ((matchedRows df1 df2).map
        fun r => (r.detailed.title_cleaned, r.detailed.author_cleaned)).contains q = true ↔
      q ∈ (matchedRows df1 df2).map
        fun r => (r.detailed.title_cleaned, r.detailed.author_cleaned) from by simp]
  rw [List.mem_map]
  constructor
  · rintro ⟨r, hr, hq⟩
    obtain ⟨d, hd, s, ⟨hs, hm⟩, rfl⟩ := mem_matchedRows.mp hr
    exact ⟨d, hd, hq, s, hs, hm⟩
  · rintro ⟨d, hd, hq, s, hs, hm⟩
    exact ⟨⟨d, s, "exact".data, ⟨1, 1⟩⟩,
      mem_matchedRows.mpr ⟨d, hd, s, ⟨hs, hm⟩, rfl⟩, hq⟩

end DataMerger4

/-- C1, counterexample: on the spec's own §8 scenario (one detailed and one
summary record with the same title and year but different composite keys,
fuzzy-matched with similarity 1), the merged output contains the pair while
BOTH unmatched collections still contain the very records of that pair: the
unmatched frames are computed before the fuzzy phase and returned
unchanged, so the matched/unmatched split is not a partition. -/
theorem C1_counterexample :
    (DataMerger.merge_datasets [Examples.dZh] [Examples.sZh]).1 = [Examples.rowZh] ∧
    Examples.rowZh.detailed = Examples.dZh ∧
    Examples.rowZh.summary = Examples.sZh ∧
    (DataMerger.merge_datasets [Examples.dZh] [Examples.sZh]).2.1 = [Examples.dZh] ∧
    (DataMerger.merge_datasets [Examples.dZh] [Examples.sZh]).2.2 = [Examples.sZh] :=
  ⟨by decide, rfl, rfl, by decide, by decide⟩

/-- C1, amended: in both DataMerger.py and DataMerger2.py the partition
property holds for the exact phase only — a record sits in the returned
unmatched collection exactly when no record on the other side shares its
composite key, and the two sides of every exact pair are excluded from the
unmatched collections — while every fuzzy row's detailed and summary
records additionally REMAIN in the returned unmatched collections, so the
partition claim fails whenever a fuzzy match is accepted. -/
theorem C1_partition_amended :
    (∀ (df1 : List DataMerger.DetailedRec) (df2 : List DataMerger.SummaryRec),
      (∀ d ∈ df1, d ∈ (DataMerger.merge_datasets df1 df2).2.1 ↔
         ¬∃ s ∈ df2, s.composite_key = d.composite_key) ∧
      (∀ s ∈ df2, s ∈ (DataMerger.merge_datasets df1 df2).2.2 ↔
         ¬∃ d ∈ df1, d.composite_key = s.composite_key) ∧
      (∀ r ∈ (DataMerger.merge_datasets df1 df2).1,
         r.match_type = "exact".data ∨ r.match_type = "fuzzy".data) ∧
      (∀ r ∈ (DataMerger.merge_datasets df1 df2).1, r.match_type = "exact".data →
         r.detailed ∈ df1 ∧ r.summary ∈ df2 ∧
         r.detailed ∉ (DataMerger.merge_datasets df1 df2).2.1 ∧
         r.summary ∉ (DataMerger.merge_datasets df1 df2).2.2) ∧
      (∀ r ∈ (DataMerger.merge_datasets df1 df2).1, r.match_type = "fuzzy".data →
         r.detailed ∈ (DataMerger.merge_datasets df1 df2).2.1 ∧
         r.summary ∈ (DataMerger.merge_datasets df1 df2).2.2)) ∧
    (∀ (df1 : List DataMerger2.DetailedRec) (df2 : List DataMerger.SummaryRec),
      (∀ d ∈ df1, d ∈ (DataMerger2.merge_datasets df1 df2).2.1 ↔
         ¬∃ s ∈ df2, s.composite_key = d.composite_key) ∧
      (∀ s ∈ df2, s ∈ (DataMerger2.merge_datasets df1 df2).2.2 ↔
         ¬∃ d ∈ df1, d.composite_key = s.composite_key) ∧
      (∀ r ∈ (DataMerger2.merge_datasets df1 df2).1,
         r.match_type = "exact".data ∨ r.match_type = "fuzzy".data) ∧
      (∀ r ∈ (DataMerger2.merge_datasets df1 df2).1, r.match_type = "exact".data →
         r.detailed ∈ df1 ∧ r.summary ∈ df2 ∧
         r.detailed ∉ (DataMerger2.merge_datasets df1 df2).2.1 ∧
         r.summary ∉ (DataMerger2.merge_datasets df1 df2).2.2) ∧
      (∀ r ∈ (DataMerger2.merge_datasets df1 df2).1, r.match_type = "fuzzy".data →
         r.detailed ∈ (DataMerger2.merge_datasets df1 df2).2.1 ∧
         r.summary ∈ (DataMerger2.merge_datasets df1 df2).2.2)) := by
  constructor
  · intro df1 df2
    simp only [DataMerger.merge_datasets]
    refine ⟨?_, ?_, ?_, ?_, ?_⟩
    · intro d hd
      rw [DataMerger.mem_unmatched1]
      exact ⟨fun h => h.2, fun h => ⟨hd, h⟩⟩
    · intro s hs
      rw [DataMerger.mem_unmatched2]
      exact ⟨fun h => h.2, fun h => ⟨hs, h⟩⟩
    · intro r hr
      rcases List.mem_append.mp hr with h | h
      · obtain ⟨d, _, s, _, rfl⟩ := DataMerger.mem_exactRows.mp h
        exact Or.inl rfl
      · obtain ⟨d, _, p, _, rfl⟩ := DataMerger.mem_fuzzyRows.mp h
        exact Or.inr rfl
    · intro r hr hex
      rcases List.mem_append.mp hr with h | h
      · obtain ⟨d, hd, s, ⟨hs, hk⟩, rfl⟩ := DataMerger.mem_exactRows.mp h
        refine ⟨hd, hs, ?_, ?_⟩
        · rw [DataMerger.mem_unmatched1]
          rintro ⟨_, hns⟩
          exact hns ⟨s, hs, hk⟩
        · rw [DataMerger.mem_unmatched2]
          rintro ⟨_, hnd⟩
          exact hnd ⟨d, hd, hk.symm⟩
      · obtain ⟨d, _, p, _, rfl⟩ := DataMerger.mem_fuzzyRows.mp h
        simp at hex
    · intro r hr hfz
      rcases List.mem_append.mp hr with h | h
      · obtain ⟨d, _, s, _, rfl⟩ := DataMerger.mem_exactRows.mp h
        simp at hfz
      · obtain ⟨d, hd, p, hp, rfl⟩ := DataMerger.mem_fuzzyRows.mp h
        exact ⟨hd, (DataMerger.bestA_spec hp).1⟩
  · intro df1 df2
    simp only [DataMerger2.merge_datasets]
    refine ⟨?_, ?_, ?_, ?_, ?_⟩
    · intro d hd
      rw [DataMerger2.mem_unmatched1B]
      exact ⟨fun h => h.2, fun h => ⟨hd, h⟩⟩
    · intro s hs
      rw [DataMerger2.mem_unmatched2B]
      exact ⟨fun h => h.2, fun h => ⟨hs, h⟩⟩
    · intro r hr
      rcases List.mem_append.mp hr with h | h
      · obtain ⟨d, _, s, _, rfl⟩ := DataMerger2.mem_exactRowsB.mp h
        exact Or.inl rfl
      · obtain ⟨d, _, p, _, rfl⟩ := DataMerger2.mem_fuzzyRowsB.mp h
        exact Or.inr rfl
    · intro r hr hex
      rcases List.mem_append.mp hr with h | h
      · obtain ⟨d, hd, s, ⟨hs, hk⟩, rfl⟩ := DataMerger2.mem_exactRowsB.mp h
        refine ⟨hd, hs, ?_, ?_⟩
        · rw [DataMerger2.mem_unmatched1B]
          rintro ⟨_, hns⟩
          exact hns ⟨s, hs, hk⟩
        · rw [DataMerger2.mem_unmatched2B]
          rintro ⟨_, hnd⟩
          exact hnd ⟨d, hd, hk.symm⟩
      · obtain ⟨d, _, p, _, rfl⟩ := DataMerger2.mem_fuzzyRowsB.mp h
        simp at hex
    · intro r hr hfz
      rcases List.mem_append.mp hr with h | h
      · obtain ⟨d, _, s, _, rfl⟩ := DataMerger2.mem_exactRowsB.mp h
        simp at hfz
      · obtain ⟨d, hd, p, hp, rfl⟩ := DataMerger2.mem_fuzzyRowsB.mp h
        exact ⟨hd, (DataMerger2.bestB_spec hp).1⟩

/-- C1, witness: the amended statement applied at a concrete run — the
detailed record of the §8 scenario sits in the returned unmatchedDetailed
because no summary record shares its composite key. -/
theorem C1_partition_amended_witness :
    Examples.dZh ∈ (DataMerger.merge_datasets [Examples.dZh] [Examples.sZh]).2.1 :=
  ((C1_partition_amended.1 [Examples.dZh] [Examples.sZh]).1 Examples.dZh
    (by decide)).mpr (by decide)

/-- C2: for every fuzzy-accepted match, the recorded score respects the
configured policy — in src/DataMerger.py (Policy A) the title-only
`similarity_score` is at least 0.85 (the code even requires strictly
more), and in src/DataMerger2.py (Policy B) the recorded component
similarities satisfy title ≥ 0.85 and author ≥ 0.80 while the recorded
`similarity_score` is the weighted combination 0.7·title + 0.3·author. -/
theorem C2_threshold_respected :
    (∀ (df1 : List DataMerger.DetailedRec) (df2 : List DataMerger.SummaryRec),
       ∀ r ∈ (DataMerger.merge_datasets df1 df2).1, r.match_type = "fuzzy".data →
         (85 : ℚ) / 100 ≤ r.similarity_score.toRat) ∧
    (∀ (df1 : List DataMerger2.DetailedRec) (df2 : List DataMerger.SummaryRec),
       ∀ r ∈ (DataMerger2.merge_datasets df1 df2).1, r.match_type = "fuzzy".data →
         (85 : ℚ) / 100 ≤ r.title_similarity.toRat ∧
         (80 : ℚ) / 100 ≤ r.author_similarity.toRat ∧
         r.similarity_score.toRat =
           r.title_similarity.toRat * ((7 : ℚ) / 10) +
             r.author_similarity.toRat * ((3 : ℚ) / 10)) := by
  constructor
  · intro df1 df2 r hr hfz
    simp only [DataMerger.merge_datasets] at hr
    rcases List.mem_append.mp hr with h | h
    · obtain ⟨d, _, s, _, rfl⟩ := DataMerger.mem_exactRows.mp h
      simp at hfz
    · obtain ⟨d, _, p, hp, rfl⟩ := DataMerger.mem_fuzzyRows.mp h
      obtain ⟨_, hblt, hden⟩ := DataMerger.bestA_spec hp
      have ht : DataMerger.thresholdA.toRat = (85 : ℚ) / 100 := by
        norm_num [DataMerger.thresholdA, TaiwanScraper.Score.toRat]
      have := TaiwanScraper.Score.blt_toRat (by decide) hden hblt
      rw [ht] at this
      exact le_of_lt this
  · intro df1 df2 r hr hfz
    simp only [DataMerger2.merge_datasets] at hr
    rcases List.mem_append.mp hr with h | h
    · obtain ⟨d, _, s, _, rfl⟩ := DataMerger2.mem_exactRowsB.mp h
      simp at hfz
    · obtain ⟨d, _, p, hp, rfl⟩ := DataMerger2.mem_fuzzyRowsB.mp h
      obtain ⟨_, hbt, hba, hcomb, hdt, hda⟩ := DataMerger2.bestB_spec hp
      have htt : DataMerger2.thresholdTitle.toRat = (85 : ℚ) / 100 := by
        norm_num [DataMerger2.thresholdTitle, TaiwanScraper.Score.toRat]
      have hta : DataMerger2.thresholdAuthor.toRat = (80 : ℚ) / 100 := by
        norm_num [DataMerger2.thresholdAuthor, TaiwanScraper.Score.toRat]
      refine ⟨?_, ?_, ?_⟩
      · have := TaiwanScraper.Score.ble_toRat (by decide) hdt hbt
        rw [htt] at this
        exact this
      · have := TaiwanScraper.Score.ble_toRat (by decide) hda hba
        rw [hta] at this
        exact this
      · show p.2.1.toRat = _
        rw [hcomb, TaiwanScraper.Score.toRat_add
            (by simp [TaiwanScraper.Score.mul]; omega)
            (by simp [TaiwanScraper.Score.mul]; omega),
          TaiwanScraper.Score.toRat_mul, TaiwanScraper.Score.toRat_mul]
        norm_num [TaiwanScraper.Score.toRat]

/-- C2, witness: both parts of the theorem applied at concrete fuzzy-matched
runs. -/
theorem C2_threshold_respected_witness :
    ((85 : ℚ) / 100 ≤ Examples.rowZh.similarity_score.toRat) ∧
    ((85 : ℚ) / 100 ≤ Examples.row2W.title_similarity.toRat ∧
     (80 : ℚ) / 100 ≤ Examples.row2W.author_similarity.toRat ∧
     Examples.row2W.similarity_score.toRat =
       Examples.row2W.title_similarity.toRat * ((7 : ℚ) / 10) +
         Examples.row2W.author_similarity.toRat * ((3 : ℚ) / 10)) :=
  ⟨C2_threshold_respected.1 [Examples.dZh] [Examples.sZh] Examples.rowZh
      (by decide) (by decide),
   C2_threshold_respected.2 [Examples.d2W] [Examples.s2W] Examples.row2W
      (by decide) (by decide)⟩

namespace DataMerger

open TaiwanScraper

theorem exactRows_count (df2 : List SummaryRec) (k : Str) :
    ∀ df1 : List DetailedRec,
      ((exactRows df1 df2).filter
          (fun r => r.match_type == "exact".data && r.detailed.composite_key == k)).length =
        (df1.filter (fun d => d.composite_key == k)).length *
          (df2.filter (fun s => s.composite_key == k)).length := by
  intro df1
  induction df1 with
  | nil => simp [exactRows]
  | cons d rest ih =>
    have hsplit : exactRows (d :: rest) df2 =
        ((df2.filter fun s => s.composite_key == d.composite_key).map fun s =>
          (⟨d, s, "exact".data, ⟨1, 1⟩⟩ : MergedRow)) ++ exactRows rest df2 := rfl
    rw [hsplit, List.filter_append, List.length_append, ih, List.filter_map,
      List.length_map]
    by_cases hk : d.composite_key = k
    · have hpred : ((fun r : MergedRow =>
          r.match_type == "exact".data && r.detailed.composite_key == k) ∘
          (fun s => (⟨d, s, "exact".data, ⟨1, 1⟩⟩ : MergedRow))) = fun _ => true := by
        funext s
        simp [Function.comp, hk]
      have h2 : (df2.filter fun s => s.composite_key == d.composite_key) =
          df2.filter fun s => s.composite_key == k := by rw [hk]
      rw [hpred, h2, List.filter_cons, if_pos (by simp [hk])]
      simp only [List.filter_true, List.length_cons]
      ring
    · have hpred : ((fun r : MergedRow =>
          r.match_type == "exact".data && r.detailed.composite_key == k) ∘
          (fun s => (⟨d, s, "exact".data, ⟨1, 1⟩⟩ : MergedRow))) = fun _ => false := by
        funext s
        simp [Function.comp, hk]
      rw [hpred, List.filter_cons, if_neg (by simp [hk])]
      simp

end DataMerger

/-- C3: Phase 1 of src/DataMerger.py is a relational inner join on
`composite_key`: for every key k the number of exact merged rows whose key
is k equals the product of the numbers of detailed and summary records with
key k (the full cross product); every exact row carries score 1.0 and
equal keys on both sides; and any record whose composite key occurs on the
other side — in particular a summary record matched exactly — is excluded
from the returned unmatched collections, hence from the Phase 2 pools. -/
theorem C3_exact_inner_join :
    ∀ (df1 : List DataMerger.DetailedRec) (df2 : List DataMerger.SummaryRec)
      (k : TaiwanScraper.Str),
      (((DataMerger.merge_datasets df1 df2).1.filter
          (fun r => r.match_type == "exact".data && r.detailed.composite_key == k)).length =
        (df1.filter (fun d => d.composite_key == k)).length *
          (df2.filter (fun s => s.composite_key == k)).length) ∧
      (∀ r ∈ (DataMerger.merge_datasets df1 df2).1, r.match_type = "exact".data →
         r.similarity_score.toRat = 1 ∧
         r.summary.composite_key = r.detailed.composite_key) ∧
      (∀ d ∈ df1, (∃ s ∈ df2, s.composite_key = d.composite_key) →
         d ∉ (DataMerger.merge_datasets df1 df2).2.1) ∧
      (∀ s ∈ df2, (∃ d ∈ df1, d.composite_key = s.composite_key) →
         s ∉ (DataMerger.merge_datasets df1 df2).2.2) := by
  intro df1 df2 k
  refine ⟨?_, ?_, ?_, ?_⟩
  · simp only [DataMerger.merge_datasets]
    rw [List.filter_append, List.length_append]
    have hfz : (DataMerger.fuzzyRows df1 df2).filter
        (fun r => r.match_type == "exact".data && r.detailed.composite_key == k) = [] := by
      rw [List.filter_eq_nil_iff]
      intro r hr
      obtain ⟨d, _, p, _, rfl⟩ := DataMerger.mem_fuzzyRows.mp hr
      simp
    rw [hfz]
    simp only [List.length_nil, Nat.add_zero]
    exact DataMerger.exactRows_count df2 k df1
  · intro r hr hex
    rcases List.mem_append.mp (by simpa [DataMerger.merge_datasets] using hr) with h | h
    · obtain ⟨d, _, s, ⟨_, hk⟩, rfl⟩ := DataMerger.mem_exactRows.mp h
      exact ⟨by norm_num [TaiwanScraper.Score.toRat], hk⟩
    · obtain ⟨d, _, p, _, rfl⟩ := DataMerger.mem_fuzzyRows.mp h
      simp at hex
  · intro d hd hex
    simp only [DataMerger.merge_datasets]
    rw [DataMerger.mem_unmatched1]
    rintro ⟨_, hns⟩
    exact hns hex
  · intro s hs hex
    simp only [DataMerger.merge_datasets]
    rw [DataMerger.mem_unmatched2]
    rintro ⟨_, hnd⟩
    exact hnd hex

/-- C3, witness: the theorem applied at the spec's composite-key-collision
scenario — two detailed records and one summary record sharing a key give
2 = 2 × 1 exact rows, and the summary record is not among the unmatched
summary records. -/
theorem C3_exact_inner_join_witness :
    (((DataMerger.merge_datasets [Examples.dShiA, Examples.dShiB] [Examples.sShi]).1.filter
        (fun r => r.match_type == "exact".data &&
          r.detailed.composite_key == Examples.kShi)).length = 2) ∧
    Examples.sShi ∉ (DataMerger.merge_datasets [Examples.dShiA, Examples.dShiB]
        [Examples.sShi]).2.2 :=
  ⟨((C3_exact_inner_join [Examples.dShiA, Examples.dShiB] [Examples.sShi]
      Examples.kShi).1).trans (by decide),
   (C3_exact_inner_join [Examples.dShiA, Examples.dShiB] [Examples.sShi]
      Examples.kShi).2.2.2 Examples.sShi (by decide)
      ⟨Examples.dShiA, by decide, by decide⟩⟩

/-- C4 — Policy C never completes: the claimed field-pair join with
unmatched collections on both sides is not the program's behaviour, because
src/DataMerger4.py line 75 selects the column `author_summary` from the
merged frame while the detailed table has no `author` column, so `pd.merge`
leaves the summary side's `author` unsuffixed, the label `author_summary`
does not exist (`title_summary` does), and the selection raises `KeyError`
on every input before any unmatched frame is returned. -/
theorem C4_line75_keyerror :
    "author_summary".data ∉ DataMerger4.mergedCols ∧
    "title_summary".data ∈ DataMerger4.mergedCols ∧
    ∀ (df1 : List DataMerger4.DetailedRec) (df2 : List DataMerger4.SummaryRec),
      DataMerger4.merge_datasets df1 df2 = Except.error "author_summary".data :=
  ⟨by decide, by decide, fun _ _ => rfl⟩

/-- C4, witness: the failing run at a concrete input — one detailed and one
summary record — evaluates to the `KeyError` on `author_summary`. -/
theorem C4_line75_keyerror_witness :
    DataMerger4.merge_datasets [Examples.d4X] [Examples.s4X] =
      Except.error "author_summary".data :=
  C4_line75_keyerror.2.2 [Examples.d4X] [Examples.s4X]

namespace TaiwanScraper

theorem toNat_ofNat_small {n : Nat} (h : n < 55296) : (Char.ofNat n).toNat = n := by
  unfold Char.ofNat
  rw [dif_pos (Or.inl h)]
  rfl

theorem nfkcChar_of_small {c : Char} (h : c.toNat < 160) : nfkcChar c = c := by
  unfold nfkcChar
  have hn : nfkcTable.find? (fun p => p.1 = c) = none := by
    rw [List.find?_eq_none]
    intro p hp
    have hbig := (by decide : ∀ p ∈ nfkcTable, 160 ≤ p.1.toNat) p hp
    simp only [decide_eq_true_eq]
    rintro rfl
    omega
  rw [hn]

theorem nfkcChar_idem (c : Char) : nfkcChar (nfkcChar c) = nfkcChar c := by
  cases hf : nfkcTable.find? (fun p => p.1 = c) with
  | none =>
    have h1 : nfkcChar c = c := by unfold nfkcChar; rw [hf]
    rw [h1]
    exact h1
  | some p =>
    have h1 : nfkcChar c = p.2 := by unfold nfkcChar; rw [hf]
    have hp : p ∈ nfkcTable := List.mem_of_find?_eq_some hf
    rw [h1]
    exact (by decide : ∀ q ∈ nfkcTable, nfkcChar q.2 = q.2) p hp

theorem pyLowerChar_eq_self {c : Char} (h : ¬(65 ≤ c.toNat ∧ c.toNat ≤ 90)) :
    pyLowerChar c = c := by
  unfold pyLowerChar
  rw [if_neg h]

theorem pyLowerChar_toNat {c : Char} (h : 65 ≤ c.toNat ∧ c.toNat ≤ 90) :
    (pyLowerChar c).toNat = c.toNat + 32 := by
  unfold pyLowerChar
  rw [if_pos h, toNat_ofNat_small (by omega)]

theorem pyLowerChar_idem (c : Char) : pyLowerChar (pyLowerChar c) = pyLowerChar c := by
  by_cases h : 65 ≤ c.toNat ∧ c.toNat ≤ 90
  · have ht := pyLowerChar_toNat h
    apply pyLowerChar_eq_self
    rw [ht]
    omega
  · rw [pyLowerChar_eq_self h, pyLowerChar_eq_self h]

theorem nfkcChar_pyLowerChar {c : Char} (h : nfkcChar c = c) :
    nfkcChar (pyLowerChar c) = pyLowerChar c := by
  by_cases hc : 65 ≤ c.toNat ∧ c.toNat ≤ 90
  · exact nfkcChar_of_small (by rw [pyLowerChar_toNat hc]; omega)
  · rw [pyLowerChar_eq_self hc]
    exact h

theorem pyWs_pyLowerChar {c : Char} (h : pyWs (pyLowerChar c) = true) :
    pyLowerChar c = c := by
  by_cases hc : 65 ≤ c.toNat ∧ c.toNat ≤ 90
  · exfalso
    have ht := pyLowerChar_toNat hc
    have hle : (pyLowerChar c).toNat ≤ 32 := by
      unfold pyWs at h
      simp only [Bool.or_eq_true, decide_eq_true_eq] at h
      rcases h with ((((he | he) | he) | he) | he) | he <;> rw [he] <;> decide
    omega
  · exact pyLowerChar_eq_self hc

theorem mem_joinSpace {c : Char} :
    ∀ {l : List Str}, c ∈ joinSpace l → c = ' ' ∨ ∃ w ∈ l, c ∈ w := by
  intro l
  induction l with
  | nil => intro h; cases h
  | cons w rest ih =>
    cases rest with
    | nil =>
      intro h
      exact Or.inr ⟨w, by simp, h⟩
    | cons w2 rest2 =>
      intro h
      rcases List.mem_append.mp h with h | h
      · exact Or.inr ⟨w, by simp, h⟩
      · rcases List.mem_cons.mp h with h | h
        · exact Or.inl h
        · rcases ih h with h | ⟨w3, hw3, hc⟩
          · exact Or.inl h
          · exact Or.inr ⟨w3, by simp [hw3], hc⟩

theorem pySplitAux_chars :
    ∀ (s acc w : Str), w ∈ pySplitAux s acc → ∀ c ∈ w,
      c ∈ acc ∨ (c ∈ s ∧ pyWs c = false) := by
  intro s
  induction s with
  | nil =>
    intro acc w hw c hc
    unfold pySplitAux at hw
    by_cases ha : acc = []
    · rw [if_pos ha] at hw
      cases hw
    · rw [if_neg ha] at hw
      rcases List.mem_cons.mp hw with rfl | hw2
      · exact Or.inl (List.mem_reverse.mp hc)
      · cases hw2
  | cons ch rest ih =>
    intro acc w hw c hc
    unfold pySplitAux at hw
    by_cases hws : pyWs ch
    · rw [if_pos hws] at hw
      by_cases ha : acc = []
      · rw [if_pos ha] at hw
        rcases ih [] w hw c hc with h | h
        · cases h
        · exact Or.inr ⟨by simp [h.1], h.2⟩
      · rw [if_neg ha] at hw
        rcases List.mem_cons.mp hw with rfl | hw2
        · exact Or.inl (List.mem_reverse.mp hc)
        · rcases ih [] w hw2 c hc with h | h
          · cases h
          · exact Or.inr ⟨by simp [h.1], h.2⟩
    · rw [if_neg hws] at hw
      rcases ih (ch :: acc) w hw c hc with h | h
      · rcases List.mem_cons.mp h with rfl | h2
        · exact Or.inr ⟨by simp, by simpa using hws⟩
        · exact Or.inl h2
      · exact Or.inr ⟨by simp [h.1], h.2⟩

theorem collapseWs_chars {s : Str} {c : Char} (h : c ∈ collapseWs s) :
    c = ' ' ∨ (c ∈ s ∧ pyWs c = false) := by
  rcases mem_joinSpace h with h | ⟨w, hw, hc⟩
  · exact Or.inl h
  · rcases pySplitAux_chars s [] w hw c hc with h2 | h2
    · cases h2
    · exact Or.inr h2

theorem pyStrip_subset {s : Str} {c : Char} (h : c ∈ pyStrip s) : c ∈ s := by
  unfold pyStrip at h
  rw [List.mem_reverse] at h
  have h2 := (List.dropWhile_sublist pyWs).subset h
  rw [List.mem_reverse] at h2
  exact (List.dropWhile_sublist pyWs).subset h2

theorem head?_dropWhile_false {p : Char → Bool} :
    ∀ {l : Str} {a : Char}, (l.dropWhile p).head? = some a → p a = false := by
  intro l
  induction l with
  | nil => intro a h; cases h
  | cons c rest ih =>
    intro a h
    rw [List.dropWhile_cons] at h
    split at h
    · exact ih h
    · rename_i hpc
      injection h with h
      subst h
      exact Bool.not_eq_true _ ▸ (by simpa using hpc)

theorem dropWhile_append_exists (p : Char → Bool) :
    ∀ l : Str, ∃ u, u ++ l.dropWhile p = l := by
  intro l
  induction l with
  | nil => exact ⟨[], rfl⟩
  | cons c rest ih =>
    rw [List.dropWhile_cons]
    split
    · obtain ⟨u, hu⟩ := ih
      exact ⟨c :: u, by simp [hu]⟩
    · exact ⟨[], rfl⟩

theorem pyStrip_getLast? {s : Str} {a : Char} (h : (pyStrip s).getLast? = some a) :
    pyWs a = false := by
  unfold pyStrip at h
  rw [List.getLast?_reverse] at h
  exact head?_dropWhile_false h

theorem pyStrip_head? {s : Str} {a : Char} (h : (pyStrip s).head? = some a) :
    pyWs a = false := by
  unfold pyStrip at h
  rw [List.head?_reverse] at h
  obtain ⟨u, hu⟩ := dropWhile_append_exists pyWs ((s.dropWhile pyWs).reverse)
  have hne : (s.dropWhile pyWs).reverse.dropWhile pyWs ≠ [] := by
    intro hnil
    rw [hnil] at h
    cases h
  have hL : ((s.dropWhile pyWs).reverse).getLast? = some a := by
    rw [← hu, List.getLast?_append_of_ne_nil u hne]
    exact h
  rw [List.getLast?_reverse] at hL
  exact head?_dropWhile_false hL

theorem dropWhile_eq_self_of_head {p : Char → Bool} {l : Str}
    (h : ∀ a, l.head? = some a → p a = false) : l.dropWhile p = l := by
  cases l with
  | nil => rfl
  | cons c rest =>
    rw [List.dropWhile_cons, if_neg]
    simp [h c rfl]

theorem pyStrip_eq_self {u : Str}
    (h1 : ∀ a, u.head? = some a → pyWs a = false)
    (h2 : ∀ a, u.getLast? = some a → pyWs a = false) : pyStrip u = u := by
  have hrev : ∀ a, (u.reverse).head? = some a → pyWs a = false := by
    intro a ha
    rw [List.head?_reverse] at ha
    exact h2 a ha
  unfold pyStrip
  rw [dropWhile_eq_self_of_head h1, dropWhile_eq_self_of_head hrev,
    List.reverse_reverse]

theorem pySplitAux_cons (c : Char) (rest acc : Str) :
    pySplitAux (c :: rest) acc =
      if pyWs c = true then
        (if acc = [] then pySplitAux rest [] else acc.reverse :: pySplitAux rest [])
      else pySplitAux rest (c :: acc) := rfl

theorem pySplitAux_word : ∀ (s acc : Str), acc ≠ [] →
    pySplitAux s acc = (acc.reverse ++ s.takeWhile (fun d => !pyWs d)) ::
      pySplit (s.dropWhile (fun d => !pyWs d)) := by
  intro s
  induction s with
  | nil =>
    intro acc ha
    show (if acc = [] then [] else [acc.reverse]) = _
    rw [if_neg ha]
    simp [pySplit, pySplitAux]
  | cons c rest ih =>
    intro acc ha
    rw [pySplitAux_cons]
    by_cases hws : pyWs c
    · rw [if_pos hws, if_neg ha,
        show (c :: rest).takeWhile (fun d => !pyWs d) = [] from by
          simp [List.takeWhile_cons, hws],
        show (c :: rest).dropWhile (fun d => !pyWs d) = c :: rest from by
          simp [List.dropWhile_cons, hws],
        List.append_nil,
        show pySplit (c :: rest) = pySplitAux rest [] from by
          rw [pySplit, pySplitAux_cons, if_pos hws, if_pos rfl]]
    · rw [if_neg hws, ih (c :: acc) (by simp),
        show (c :: rest).takeWhile (fun d => !pyWs d) =
          c :: rest.takeWhile (fun d => !pyWs d) from by
          simp [List.takeWhile_cons, hws],
        show (c :: rest).dropWhile (fun d => !pyWs d) =
          rest.dropWhile (fun d => !pyWs d) from by
          simp [List.dropWhile_cons, hws]]
      simp

theorem pySplit_cons_ws {c : Char} {rest : Str} (h : pyWs c = true) :
    pySplit (c :: rest) = pySplit rest := by
  rw [pySplit, pySplitAux_cons, if_pos h, if_pos rfl]
  rfl

theorem pySplit_cons_nonws {c : Char} {rest : Str} (h : pyWs c = false) :
    pySplit (c :: rest) = (c :: rest.takeWhile (fun d => !pyWs d)) ::
      pySplit (rest.dropWhile (fun d => !pyWs d)) := by
  rw [pySplit, pySplitAux_cons, if_neg (by simp [h]),
    pySplitAux_word rest [c] (by simp)]
  rfl

theorem noDoubleSpace_tail {c : Char} {r : Str}
    (h : SpecSide.noDoubleSpace (c :: r) = true) : SpecSide.noDoubleSpace r = true := by
  cases r with
  | nil => rfl
  | cons d r2 =>
    have h2 : (!(c = ' ' && d = ' ') && SpecSide.noDoubleSpace (d :: r2)) = true := h
    rw [Bool.and_eq_true] at h2
    exact h2.2

theorem noDoubleSpace_append {x y : Str}
    (h : SpecSide.noDoubleSpace (x ++ y) = true) : SpecSide.noDoubleSpace y = true := by
  induction x with
  | nil => exact h
  | cons c rest ih => exact ih (noDoubleSpace_tail h)

theorem noDoubleSpace_two {d : Char} {r : Str}
    (h : SpecSide.noDoubleSpace (' ' :: d :: r) = true) : d ≠ ' ' := by
  have h2 : (!(' ' = ' ' && d = ' ') && SpecSide.noDoubleSpace (d :: r)) = true := h
  rw [Bool.and_eq_true] at h2
  intro hde
  subst hde
  simp at h2

theorem collapse_fixed : ∀ (n : Nat) (s : Str), s.length ≤ n →
    (∀ c ∈ s, pyWs c = true → c = ' ') →
    SpecSide.noDoubleSpace s = true →
    (∀ a, s.head? = some a → pyWs a = false) →
    (∀ a, s.getLast? = some a → pyWs a = false) →
    collapseWs s = s := by
  intro n
  induction n with
  | zero =>
    intro s hlen _ _ _ _
    have hnil : s = [] := List.length_eq_zero.mp (Nat.le_zero.mp hlen)
    subst hnil
    rfl
  | succ n ihn =>
    intro s hlen hws hnd hh hl
    cases s with
    | nil => rfl
    | cons ch rest =>
      have hch : pyWs ch = false := hh ch rfl
      rw [collapseWs, pySplit_cons_nonws hch]
      obtain ⟨w, r, hw, hr, hwr⟩ :
          ∃ w r, rest.takeWhile (fun d => !pyWs d) = w ∧
            rest.dropWhile (fun d => !pyWs d) = r ∧ w ++ r = rest :=
        ⟨_, _, rfl, rfl, List.takeWhile_append_dropWhile _ _⟩
      rw [hw, hr]
      subst hwr
      cases r with
      | nil => simp [joinSpace]
      | cons r0 r1 =>
        have hr0ws : pyWs r0 = true := by
          have := head?_dropWhile_false (p := fun d => !pyWs d) (l := w ++ r0 :: r1)
            (a := r0) (by rw [hr]; rfl)
          simpa using this
        have hr0 : r0 = ' ' := hws r0 (by simp) hr0ws
        cases r1 with
        | nil =>
          exfalso
          have hlast : (ch :: (w ++ [r0])).getLast? = some r0 := by
            rw [show ch :: (w ++ [r0]) = (ch :: w) ++ [r0] from rfl]
            exact List.getLast?_concat _
          rw [hl r0 hlast] at hr0ws
          cases hr0ws
        | cons d r2 =>
          have hnd2 : SpecSide.noDoubleSpace (r0 :: d :: r2) = true :=
            noDoubleSpace_append
              (x := ch :: w) (by rw [show (ch :: w) ++ r0 :: d :: r2 =
                ch :: (w ++ r0 :: d :: r2) from rfl]; exact hnd)
          have hdne : d ≠ ' ' := by
            rw [hr0] at hnd2
            exact noDoubleSpace_two hnd2
          have hdws : pyWs d = false := by
            cases hdw : pyWs d with
            | false => rfl
            | true => exact absurd (hws d (by simp) hdw) hdne
          rw [pySplit_cons_ws hr0ws]
          have hlen2 : (d :: r2).length ≤ n := by
            simp only [List.length_cons, List.length_append] at hlen ⊢
            omega
          have hIH : collapseWs (d :: r2) = d :: r2 := by
            refine ihn (d :: r2) hlen2 ?_ ?_ ?_ ?_
            · intro c hc hcw
              exact hws c (by simp [hc]) hcw
            · exact noDoubleSpace_append (x := (ch :: w) ++ [r0])
                (by rw [show ((ch :: w) ++ [r0]) ++ d :: r2 =
                  ch :: (w ++ r0 :: d :: r2) from by simp]; exact hnd)
            · intro a ha
              injection ha with ha
              subst ha
              exact hdws
            · intro a ha
              refine hl a ?_
              rw [show ch :: (w ++ r0 :: d :: r2) =
                (ch :: (w ++ [r0])) ++ d :: r2 from by simp]
              rw [List.getLast?_append_of_ne_nil _ (by simp)]
              exact ha
          rw [collapseWs] at hIH
          cases hps : pySplit (d :: r2) with
          | nil =>
            rw [hps] at hIH
            exact List.noConfusion hIH
          | cons p0 ps =>
            rw [hps] at hIH
            show (ch :: w) ++ ' ' :: joinSpace (p0 :: ps) = _
            rw [hIH, hr0]
            simp

theorem map_eq_self_of_fixed {f : Char → Char} :
    ∀ {l : Str}, (∀ c ∈ l, f c = c) → l.map f = l := by
  intro l h
  induction l with
  | nil => rfl
  | cons c rest ih =>
    rw [List.map_cons, h c (by simp), ih fun d hd => h d (by simp [hd])]

end TaiwanScraper

namespace DataMerger

open TaiwanScraper

theorem normalize_chars {t : Str} (hm : t ≠ missingStr) :
    ∀ c ∈ normalize_text (some t),
      nfkcChar c = c ∧ pyLowerChar c = c ∧ punctList.contains c = false ∧
        (pyWs c = true → c = ' ') := by
  intro c hc
  have hu : normalize_text (some t) =
      pyStrip (removePunct ((collapseWs (t.map nfkcChar)).map pyLowerChar)) := by
    simp only [normalize_text]
    rw [if_neg hm]
  rw [hu] at hc
  have hc2 := pyStrip_subset hc
  obtain ⟨hc3, hp⟩ := List.mem_filter.mp hc2
  have hpc : punctList.contains c = false := by
    cases hx : punctList.contains c with
    | false => rfl
    | true => rw [hx] at hp; cases hp
  obtain ⟨d, hd, hcd⟩ := List.mem_map.mp hc3
  rcases collapseWs_chars hd with hd' | ⟨hd', hdws⟩
  · subst hd'
    have hc' : c = ' ' := by
      rw [← hcd]
      decide
    subst hc'
    exact ⟨by decide, by decide, hpc, fun _ => rfl⟩
  · obtain ⟨e, he, hde⟩ := List.mem_map.mp hd'
    have hnfd : nfkcChar d = d := by rw [← hde]; exact nfkcChar_idem e
    refine ⟨by rw [← hcd]; exact nfkcChar_pyLowerChar hnfd,
      by rw [← hcd]; exact pyLowerChar_idem d, hpc, ?_⟩
    intro hcws
    exfalso
    have hfix : pyLowerChar d = d := pyWs_pyLowerChar (by rw [hcd]; exact hcws)
    rw [← hcd, hfix] at hcws
    rw [hcws] at hdws
    cases hdws

end DataMerger

/-- C6, counterexample: normalization is not idempotent — on "a . b" the
punctuation-removal step merges the two single spaces around the removed
dot into a double space, which a second normalization pass collapses, so
`normalize (normalize "a . b")` = "a  b" collapsed = "a b" differs from
`normalize "a . b"` = "a  b". -/
theorem C6_counterexample :
    DataMerger.normalize_text (some (DataMerger.normalize_text (some "a . b".data))) ≠
      DataMerger.normalize_text (some "a . b".data) := by
  decide

/-- C6, amended: normalization is idempotent on every input whose normalized
form neither contains two consecutive spaces (punctuation removal can merge
the single spaces around a removed character) nor equals the sentinel text
"missing" (which the second pass maps to the empty string, as on input
"MISSING"); under those two conditions a second application changes
nothing. -/
theorem C6_normalize_idempotent_conditional :
    ∀ t : TaiwanScraper.Str,
      DataMerger.normalize_text (some t) ≠ DataMerger.missingStr →
      SpecSide.noDoubleSpace (DataMerger.normalize_text (some t)) = true →
      DataMerger.normalize_text (some (DataMerger.normalize_text (some t))) =
        DataMerger.normalize_text (some t) := by
  intro t hms hnds
  by_cases hm : t = DataMerger.missingStr
  · subst hm
    decide
  · have hchars := DataMerger.normalize_chars hm
    have hu : DataMerger.normalize_text (some t) =
        TaiwanScraper.pyStrip (TaiwanScraper.removePunct
          ((TaiwanScraper.collapseWs (t.map TaiwanScraper.nfkcChar)).map
            TaiwanScraper.pyLowerChar)) := by
      simp only [DataMerger.normalize_text]
      rw [if_neg hm]
    have hh : ∀ a, (DataMerger.normalize_text (some t)).head? = some a →
        TaiwanScraper.pyWs a = false := by
      intro a ha
      rw [hu] at ha
      exact TaiwanScraper.pyStrip_head? ha
    have hl : ∀ a, (DataMerger.normalize_text (some t)).getLast? = some a →
        TaiwanScraper.pyWs a = false := by
      intro a ha
      rw [hu] at ha
      exact TaiwanScraper.pyStrip_getLast? ha
    set u := DataMerger.normalize_text (some t) with hueq
    simp only [DataMerger.normalize_text]
    rw [if_neg hms,
      TaiwanScraper.map_eq_self_of_fixed fun c hc => (hchars c hc).1,
      TaiwanScraper.collapse_fixed u.length u le_rfl
        (fun c hc => (hchars c hc).2.2.2) hnds hh hl,
      TaiwanScraper.map_eq_self_of_fixed fun c hc => (hchars c hc).2.1,
      show TaiwanScraper.removePunct u = u from
        List.filter_eq_self.mpr fun c hc => by
          simp only [Bool.not_eq_true']
          exact (hchars c hc).2.2.1]
    exact TaiwanScraper.pyStrip_eq_self hh hl

/-- C6, witness: the amended statement applied at the concrete input
"Hello,  World", whose normalized form "hello world" is stable. -/
theorem C6_normalize_idempotent_witness :
    DataMerger.normalize_text (some (DataMerger.normalize_text
      (some "Hello,  World".data))) =
      DataMerger.normalize_text (some "Hello,  World".data) :=
  C6_normalize_idempotent_conditional "Hello,  World".data (by decide) (by decide)

/-!
Properties of the `difflib` model used by claim C8: the blocks found by
`get_matching_blocks` fit inside the region (so the ratio is at most 1),
and the self-comparison matches the whole string.
-/

namespace Difflib

open TaiwanScraper

/-- Unfolding `flmInner` one candidate position at a time. -/
theorem flmInner_cons (i blo bhi : Nat) (g : Nat → Nat) (j : Nat) (rest : List Nat)
    (nj : Nat → Nat) (st : Match3) :
    flmInner i blo bhi g (j :: rest) nj st =
      if j < blo then flmInner i blo bhi g rest nj st
      else if bhi ≤ j then (nj, st)
      else
        flmInner i blo bhi g rest
          (fun x => if x = j then (if j = 0 then 0 else g (j - 1)) + 1 else nj x)
          (if st.bestsize < (if j = 0 then 0 else g (j - 1)) + 1 then
            ⟨i + 1 - ((if j = 0 then 0 else g (j - 1)) + 1),
              j + 1 - ((if j = 0 then 0 else g (j - 1)) + 1),
              (if j = 0 then 0 else g (j - 1)) + 1⟩
          else st) := rfl

/-- Unfolding `flmRows` one row at a time. -/
theorem flmRows_cons (a b : Str) (blo bhi i : Nat) (rest : List Nat)
    (g : Nat → Nat) (st : Match3) :
    flmRows a b blo bhi (i :: rest) g st =
      flmRows a b blo bhi rest
        (flmInner i blo bhi g (b2j b (a.getD i ' ')) (fun _ => 0) st).1
        (flmInner i blo bhi g (b2j b (a.getD i ' ')) (fun _ => 0) st).2 := rfl

/-- `flmRows` on an empty row list returns its accumulators. -/
theorem flmRows_nil (a b : Str) (blo bhi : Nat) (g : Nat → Nat) (st : Match3) :
    flmRows a b blo bhi [] g st = (g, st) := rfl

/-- Unfolding `extendBack` one iteration at a time. -/
theorem extendBack_succ (a b : Str) (alo blo fuel : Nat) (st : Match3) :
    extendBack a b alo blo (fuel + 1) st =
      if alo < st.besti ∧ blo < st.bestj ∧
          a.getD (st.besti - 1) ' ' = b.getD (st.bestj - 1) ' ' then
        extendBack a b alo blo fuel ⟨st.besti - 1, st.bestj - 1, st.bestsize + 1⟩
      else st := rfl

/-- Unfolding `extendFwd` one iteration at a time. -/
theorem extendFwd_succ (a b : Str) (ahi bhi fuel : Nat) (st : Match3) :
    extendFwd a b ahi bhi (fuel + 1) st =
      if st.besti + st.bestsize < ahi ∧ st.bestj + st.bestsize < bhi ∧
          a.getD (st.besti + st.bestsize) ' ' = b.getD (st.bestj + st.bestsize) ' ' then
        extendFwd a b ahi bhi fuel ⟨st.besti, st.bestj, st.bestsize + 1⟩
      else st := rfl

/-- Unfolding `matchBlocks` at positive fuel. -/
theorem matchBlocks_succ (a b : Str) (fuel alo ahi blo bhi : Nat) :
    matchBlocks a b (fuel + 1) alo ahi blo bhi =
      if (find_longest_match a b alo ahi blo bhi).bestsize = 0 then []
      else
        (if alo < (find_longest_match a b alo ahi blo bhi).besti ∧
            blo < (find_longest_match a b alo ahi blo bhi).bestj then
          matchBlocks a b fuel alo (find_longest_match a b alo ahi blo bhi).besti
            blo (find_longest_match a b alo ahi blo bhi).bestj
        else []) ++
        (find_longest_match a b alo ahi blo bhi) ::
        (if (find_longest_match a b alo ahi blo bhi).besti +
              (find_longest_match a b alo ahi blo bhi).bestsize < ahi ∧
            (find_longest_match a b alo ahi blo bhi).bestj +
              (find_longest_match a b alo ahi blo bhi).bestsize < bhi then
          matchBlocks a b fuel
            ((find_longest_match a b alo ahi blo bhi).besti +
              (find_longest_match a b alo ahi blo bhi).bestsize) ahi
            ((find_longest_match a b alo ahi blo bhi).bestj +
              (find_longest_match a b alo ahi blo bhi).bestsize) bhi
        else []) := rfl

/-- Invariant of the inner loop: the fresh dictionary records runs that fit
inside the region and end no later than row `i`, and the best match stays
inside the region `[alo, ahi) × [blo, bhi)`. -/
theorem flmInner_inv (alo ahi i blo bhi : Nat) (g : Nat → Nat) (l : List Nat)
    (hi : alo ≤ i) (hia : i < ahi)
    (hg : ∀ x, g x = 0 ∨ (blo ≤ x ∧ alo + g x ≤ i ∧ blo + g x ≤ x + 1)) :
    ∀ (nj : Nat → Nat) (st : Match3),
    (∀ x, nj x = 0 ∨ (blo ≤ x ∧ alo + nj x ≤ i + 1 ∧ blo + nj x ≤ x + 1)) →
    (alo ≤ st.besti ∧ blo ≤ st.bestj ∧ st.besti + st.bestsize ≤ ahi ∧
      st.bestj + st.bestsize ≤ bhi) →
    ((∀ x, (flmInner i blo bhi g l nj st).1 x = 0 ∨
        (blo ≤ x ∧ alo + (flmInner i blo bhi g l nj st).1 x ≤ i + 1 ∧
          blo + (flmInner i blo bhi g l nj st).1 x ≤ x + 1)) ∧
      (alo ≤ (flmInner i blo bhi g l nj st).2.besti ∧
        blo ≤ (flmInner i blo bhi g l nj st).2.bestj ∧
        (flmInner i blo bhi g l nj st).2.besti +
          (flmInner i blo bhi g l nj st).2.bestsize ≤ ahi ∧
        (flmInner i blo bhi g l nj st).2.bestj +
          (flmInner i blo bhi g l nj st).2.bestsize ≤ bhi)) := by
  induction l with
  | nil => intro nj st hnj hst; exact ⟨hnj, hst⟩
  | cons j rest ih =>
    intro nj st hnj hst
    rw [flmInner_cons]
    by_cases h1 : j < blo
    · rw [if_pos h1]; exact ih nj st hnj hst
    · rw [if_neg h1]
      by_cases h2 : bhi ≤ j
      · rw [if_pos h2]; exact ⟨hnj, hst⟩
      · rw [if_neg h2]
        have hbloj : blo ≤ j := Nat.le_of_not_lt h1
        have hjbhi : j < bhi := Nat.lt_of_not_le h2
        set K := (if j = 0 then 0 else g (j - 1)) + 1 with hK
        have hkb : alo + K ≤ i + 1 ∧ blo + K ≤ j + 1 := by
          rw [hK]
          by_cases hj0 : j = 0
          · rw [if_pos hj0]; subst hj0; omega
          · rw [if_neg hj0]
            rcases hg (j - 1) with h0 | ⟨hb, ha2, hb2⟩
            · rw [h0]; omega
            · omega
        refine ih _ _ (fun x => ?_) ?_
        · dsimp only
          by_cases hx : x = j
          · rw [if_pos hx]
            subst hx
            exact Or.inr ⟨hbloj, hkb.1, hkb.2⟩
          · rw [if_neg hx]; exact hnj x
        · by_cases hup : st.bestsize < K
          · rw [if_pos hup]
            dsimp only
            refine ⟨?_, ?_, ?_, ?_⟩ <;> omega
          · rw [if_neg hup]; exact hst

/-- Invariant of the outer loop over the rows `[i, i + cnt)`: the best match
stays inside the region. -/
theorem flmRows_inv (a b : Str) (alo ahi blo bhi : Nat) (cnt : Nat) :
    ∀ (i : Nat) (g : Nat → Nat) (st : Match3),
    alo ≤ i → i + cnt ≤ ahi →
    (∀ x, g x = 0 ∨ (blo ≤ x ∧ alo + g x ≤ i ∧ blo + g x ≤ x + 1)) →
    (alo ≤ st.besti ∧ blo ≤ st.bestj ∧ st.besti + st.bestsize ≤ ahi ∧
      st.bestj + st.bestsize ≤ bhi) →
    (alo ≤ (flmRows a b blo bhi (List.range' i cnt) g st).2.besti ∧
      blo ≤ (flmRows a b blo bhi (List.range' i cnt) g st).2.bestj ∧
      (flmRows a b blo bhi (List.range' i cnt) g st).2.besti +
        (flmRows a b blo bhi (List.range' i cnt) g st).2.bestsize ≤ ahi ∧
      (flmRows a b blo bhi (List.range' i cnt) g st).2.bestj +
        (flmRows a b blo bhi (List.range' i cnt) g st).2.bestsize ≤ bhi) := by
  induction cnt with
  | zero => intro i g st _ _ _ hst; exact hst
  | succ cnt ih =>
    intro i g st hi hia hg hst
    rw [List.range'_succ, flmRows_cons]
    have hrow := flmInner_inv alo ahi i blo bhi g (b2j b (a.getD i ' '))
      hi (by omega) hg (fun _ => 0) st (fun x => Or.inl rfl) hst
    exact ih (i + 1) _ _ (by omega) (by omega) hrow.1 hrow.2

/-- The backward extension loop keeps the best match inside the region. -/
theorem extendBack_inv (a b : Str) (alo blo ahi bhi : Nat) (fuel : Nat) :
    ∀ st : Match3,
    alo ≤ st.besti → blo ≤ st.bestj → st.besti + st.bestsize ≤ ahi →
    st.bestj + st.bestsize ≤ bhi →
    (alo ≤ (extendBack a b alo blo fuel st).besti ∧
      blo ≤ (extendBack a b alo blo fuel st).bestj ∧
      (extendBack a b alo blo fuel st).besti +
        (extendBack a b alo blo fuel st).bestsize ≤ ahi ∧
      (extendBack a b alo blo fuel st).bestj +
        (extendBack a b alo blo fuel st).bestsize ≤ bhi) := by
  induction fuel with
  | zero => intro st h1 h2 h3 h4; exact ⟨h1, h2, h3, h4⟩
  | succ fuel ih =>
    intro st h1 h2 h3 h4
    rw [extendBack_succ]
    by_cases hc : alo < st.besti ∧ blo < st.bestj ∧
        a.getD (st.besti - 1) ' ' = b.getD (st.bestj - 1) ' '
    · rw [if_pos hc]
      exact ih _ (by dsimp only; omega) (by dsimp only; omega)
        (by dsimp only; omega) (by dsimp only; omega)
    · rw [if_neg hc]; exact ⟨h1, h2, h3, h4⟩

/-- The forward extension loop keeps the best match inside the region. -/
theorem extendFwd_inv (a b : Str) (ahi bhi alo blo : Nat) (fuel : Nat) :
    ∀ st : Match3,
    alo ≤ st.besti → blo ≤ st.bestj → st.besti + st.bestsize ≤ ahi →
    st.bestj + st.bestsize ≤ bhi →
    (alo ≤ (extendFwd a b ahi bhi fuel st).besti ∧
      blo ≤ (extendFwd a b ahi bhi fuel st).bestj ∧
      (extendFwd a b ahi bhi fuel st).besti +
        (extendFwd a b ahi bhi fuel st).bestsize ≤ ahi ∧
      (extendFwd a b ahi bhi fuel st).bestj +
        (extendFwd a b ahi bhi fuel st).bestsize ≤ bhi) := by
  induction fuel with
  | zero => intro st h1 h2 h3 h4; exact ⟨h1, h2, h3, h4⟩
  | succ fuel ih =>
    intro st h1 h2 h3 h4
    rw [extendFwd_succ]
    by_cases hc : st.besti + st.bestsize < ahi ∧ st.bestj + st.bestsize < bhi ∧
        a.getD (st.besti + st.bestsize) ' ' = b.getD (st.bestj + st.bestsize) ' '
    · rw [if_pos hc]
      exact ih _ (by dsimp only; omega) (by dsimp only; omega)
        (by dsimp only; omega) (by dsimp only; omega)
    · rw [if_neg hc]; exact ⟨h1, h2, h3, h4⟩

/-- `find_longest_match` returns a match lying inside the queried region. -/
theorem flm_bounds (a b : Str) (alo ahi blo bhi : Nat)
    (ha : alo ≤ ahi) (hb : blo ≤ bhi) :
    alo ≤ (find_longest_match a b alo ahi blo bhi).besti ∧
    blo ≤ (find_longest_match a b alo ahi blo bhi).bestj ∧
    (find_longest_match a b alo ahi blo bhi).besti +
      (find_longest_match a b alo ahi blo bhi).bestsize ≤ ahi ∧
    (find_longest_match a b alo ahi blo bhi).bestj +
      (find_longest_match a b alo ahi blo bhi).bestsize ≤ bhi := by
  have hrows := flmRows_inv a b alo ahi blo bhi (ahi - alo) alo (fun _ => 0)
    ⟨alo, blo, 0⟩ le_rfl (by omega) (fun x => Or.inl rfl)
    ⟨le_rfl, le_rfl, by show alo + 0 ≤ ahi; omega, by show blo + 0 ≤ bhi; omega⟩
  have hback := extendBack_inv a b alo blo ahi bhi
    (flmRows a b blo bhi (List.range' alo (ahi - alo)) (fun _ => 0)
      ⟨alo, blo, 0⟩).2.besti
    (flmRows a b blo bhi (List.range' alo (ahi - alo)) (fun _ => 0)
      ⟨alo, blo, 0⟩).2
    hrows.1 hrows.2.1 hrows.2.2.1 hrows.2.2.2
  exact extendFwd_inv a b ahi bhi alo blo ahi _
    hback.1 hback.2.1 hback.2.2.1 hback.2.2.2

/-- `sumSizes` over a concatenation. -/
theorem sumSizes_append (l1 l2 : List Match3) :
    sumSizes (l1 ++ l2) = sumSizes l1 + sumSizes l2 := by
  unfold sumSizes
  rw [List.map_append, List.sum_append]

/-- `sumSizes` over a cons. -/
theorem sumSizes_cons (m : Match3) (l : List Match3) :
    sumSizes (m :: l) = m.bestsize + sumSizes l := by
  unfold sumSizes
  rw [List.map_cons, List.sum_cons]

/-- `sumSizes` of the empty block list. -/
theorem sumSizes_nil : sumSizes [] = 0 := rfl

/-- The total size of the blocks found in a region is at most the width of
either side of the region. -/
theorem matchBlocks_sum (a b : Str) (fuel : Nat) :
    ∀ alo ahi blo bhi, alo ≤ ahi → blo ≤ bhi →
    sumSizes (matchBlocks a b fuel alo ahi blo bhi) + alo ≤ ahi ∧
    sumSizes (matchBlocks a b fuel alo ahi blo bhi) + blo ≤ bhi := by
  induction fuel with
  | zero =>
    intro alo ahi blo bhi ha hb
    rw [show matchBlocks a b 0 alo ahi blo bhi = [] from rfl, sumSizes_nil]
    omega
  | succ fuel ih =>
    intro alo ahi blo bhi ha hb
    rw [matchBlocks_succ]
    have hm := flm_bounds a b alo ahi blo bhi ha hb
    set m := find_longest_match a b alo ahi blo bhi with hmdef
    by_cases h0 : m.bestsize = 0
    · rw [if_pos h0, sumSizes_nil]; omega
    · rw [if_neg h0]
      have hLle : sumSizes (if alo < m.besti ∧ blo < m.bestj then
            matchBlocks a b fuel alo m.besti blo m.bestj else []) + alo ≤ m.besti ∧
          sumSizes (if alo < m.besti ∧ blo < m.bestj then
            matchBlocks a b fuel alo m.besti blo m.bestj else []) + blo ≤ m.bestj := by
        by_cases hL : alo < m.besti ∧ blo < m.bestj
        · rw [if_pos hL]
          exact ih alo m.besti blo m.bestj (Nat.le_of_lt hL.1) (Nat.le_of_lt hL.2)
        · rw [if_neg hL, sumSizes_nil]; omega
      have hRle : sumSizes (if m.besti + m.bestsize < ahi ∧ m.bestj + m.bestsize < bhi then
            matchBlocks a b fuel (m.besti + m.bestsize) ahi (m.bestj + m.bestsize) bhi
            else []) + (m.besti + m.bestsize) ≤ ahi ∧
          sumSizes (if m.besti + m.bestsize < ahi ∧ m.bestj + m.bestsize < bhi then
            matchBlocks a b fuel (m.besti + m.bestsize) ahi (m.bestj + m.bestsize) bhi
            else []) + (m.bestj + m.bestsize) ≤ bhi := by
        by_cases hR : m.besti + m.bestsize < ahi ∧ m.bestj + m.bestsize < bhi
        · rw [if_pos hR]
          exact ih (m.besti + m.bestsize) ahi (m.bestj + m.bestsize) bhi
            (Nat.le_of_lt hR.1) (Nat.le_of_lt hR.2)
        · rw [if_neg hR, sumSizes_nil]; omega
      rw [sumSizes_append, sumSizes_cons]
      omega

/-- The matched total is at most the length of either input. -/
theorem matchesTotal_le (a b : Str) :
    matchesTotal a b ≤ a.length ∧ matchesTotal a b ≤ b.length := by
  unfold matchesTotal
  have h := matchBlocks_sum a b (a.length + b.length + 1) 0 a.length 0 b.length
    (Nat.zero_le _) (Nat.zero_le _)
  omega

/-- Splitting a filtered range at a member of the filter. -/
theorem range_filter_split (p : Nat → Bool) (n i : Nat) (hi : i < n)
    (hp : p i = true) :
    (List.range n).filter p =
      ((List.range i).filter p) ++ i ::
        ((List.range' (i + 1) (n - (i + 1))).filter p) := by
  have h1 : List.range n = List.range i ++ List.range' i (n - i) := by
    rw [List.range_eq_range', List.range_eq_range']
    have h2 := List.range'_append_1 0 i (n - i)
    rw [Nat.zero_add] at h2
    rw [h2]
    congr 1
    omega
  rw [h1, List.filter_append]
  congr 1
  have h3 : n - i = (n - (i + 1)) + 1 := by omega
  rw [h3, List.range'_succ, List.filter_cons, hp]
  simp

/-- When no candidate position reaches `bhi`, `flmInner` over a
concatenation runs the two halves in sequence. -/
theorem flmInner_append (i blo bhi : Nat) (g : Nat → Nat) (l1 l2 : List Nat) :
    ∀ (nj : Nat → Nat) (st : Match3), (∀ j ∈ l1, j < bhi) →
    flmInner i blo bhi g (l1 ++ l2) nj st =
      flmInner i blo bhi g l2 (flmInner i blo bhi g l1 nj st).1
        (flmInner i blo bhi g l1 nj st).2 := by
  induction l1 with
  | nil => intro nj st _; rfl
  | cons j rest ih =>
    intro nj st hb
    rw [List.cons_append, flmInner_cons, flmInner_cons]
    by_cases h1 : j < blo
    · rw [if_pos h1, if_pos h1]
      exact ih _ _ (fun x hx => hb x (List.mem_cons_of_mem _ hx))
    · rw [if_neg h1, if_neg h1]
      have h2 : ¬ bhi ≤ j := by
        have := hb j (List.mem_cons_self j rest)
        omega
      rw [if_neg h2, if_neg h2]
      exact ih _ _ (fun x hx => hb x (List.mem_cons_of_mem _ hx))

/-- When every candidate run is no longer than the current best, the inner
loop never updates the best match. -/
theorem flmInner_stall (i blo bhi : Nat) (g : Nat → Nat) (l : List Nat) :
    ∀ (nj : Nat → Nat) (st : Match3),
    (∀ j ∈ l, (if j = 0 then 0 else g (j - 1)) + 1 ≤ st.bestsize) →
    (flmInner i blo bhi g l nj st).2 = st := by
  induction l with
  | nil => intro nj st _; rfl
  | cons j rest ih =>
    intro nj st h
    rw [flmInner_cons]
    by_cases h1 : j < blo
    · rw [if_pos h1]
      exact ih _ _ (fun x hx => h x (List.mem_cons_of_mem _ hx))
    · rw [if_neg h1]
      by_cases h2 : bhi ≤ j
      · rw [if_pos h2]
      · rw [if_neg h2]
        have hK : ¬ st.bestsize < (if j = 0 then 0 else g (j - 1)) + 1 :=
          Nat.not_lt.mpr (h j (List.mem_cons_self j rest))
        rw [if_neg hK]
        exact ih _ _ (fun x hx => h x (List.mem_cons_of_mem _ hx))

/-- A dictionary entry at a position the candidate list never visits is the
initial entry. -/
theorem flmInner_dict_away (i blo bhi : Nat) (g : Nat → Nat) (l : List Nat)
    (x : Nat) :
    ∀ (nj : Nat → Nat) (st : Match3), (∀ j ∈ l, j ≠ x) →
    (flmInner i blo bhi g l nj st).1 x = nj x := by
  induction l with
  | nil => intro nj st _; rfl
  | cons j rest ih =>
    intro nj st h
    rw [flmInner_cons]
    by_cases h1 : j < blo
    · rw [if_pos h1]
      exact ih _ _ (fun y hy => h y (List.mem_cons_of_mem _ hy))
    · rw [if_neg h1]
      by_cases h2 : bhi ≤ j
      · rw [if_pos h2]
      · rw [if_neg h2]
        refine (ih _ _ (fun y hy => h y (List.mem_cons_of_mem _ hy))).trans ?_
        dsimp only
        rw [if_neg (fun he => h j (List.mem_cons_self j rest) he.symm)]

/-- Running row `i` of the self-comparison `SequenceMatcher(None, a, a)`
from best `(0, 0, i)` and a previous-row dictionary whose diagonal entry is
exact: the best becomes `(0, 0, i + 1)` and the fresh dictionary's diagonal
entry is exact again. -/
theorem flmRow_diag (a : Str) (i : Nat) (hin : i < a.length) (g : Nat → Nat)
    (hg1 : ∀ x, g x ≤ i) (hg2 : ∀ x, g x ≤ x + 1)
    (hgd : 0 < i → g (i - 1) = i) :
    (flmInner i 0 a.length g (b2j a (a.getD i ' '))
        (fun _ => 0) ⟨0, 0, i⟩).2 = ⟨0, 0, i + 1⟩ ∧
    (flmInner i 0 a.length g (b2j a (a.getD i ' '))
        (fun _ => 0) ⟨0, 0, i⟩).1 i = i + 1 := by
  have hsplit : b2j a (a.getD i ' ') =
      ((List.range i).filter (fun j => a.getD j ' ' == a.getD i ' ')) ++ i ::
        ((List.range' (i + 1) (a.length - (i + 1))).filter
          (fun j => a.getD j ' ' == a.getD i ' ')) := by
    unfold b2j
    exact range_filter_split _ a.length i hin (by simp)
  have hpremem : ∀ j ∈ (List.range i).filter
      (fun j => a.getD j ' ' == a.getD i ' '), j < i := by
    intro j hj
    have := List.mem_filter.mp hj
    exact List.mem_range.mp this.1
  have hsufmem : ∀ j ∈ (List.range' (i + 1) (a.length - (i + 1))).filter
      (fun j => a.getD j ' ' == a.getD i ' '), i + 1 ≤ j := by
    intro j hj
    have := List.mem_filter.mp hj
    exact (List.mem_range'_1.mp this.1).1
  rw [hsplit, flmInner_append _ _ _ _ _ _ _ _ (fun j hj => by
    have := hpremem j hj
    omega)]
  have hstall : (flmInner i 0 a.length g
      ((List.range i).filter (fun j => a.getD j ' ' == a.getD i ' '))
      (fun _ => 0) ⟨0, 0, i⟩).2 = ⟨0, 0, i⟩ := by
    apply flmInner_stall
    intro j hj
    have hji := hpremem j hj
    show (if j = 0 then 0 else g (j - 1)) + 1 ≤ i
    by_cases hj0 : j = 0
    · rw [if_pos hj0]; omega
    · rw [if_neg hj0]
      have := hg2 (j - 1)
      omega
  rw [hstall, flmInner_cons]
  rw [if_neg (Nat.not_lt_zero i), if_neg (Nat.not_le.mpr hin)]
  have hK : (if i = 0 then 0 else g (i - 1)) + 1 = i + 1 := by
    by_cases h0 : i = 0
    · rw [if_pos h0, h0]
    · rw [if_neg h0, hgd (Nat.pos_of_ne_zero h0)]
  rw [hK]
  have hc : Match3.bestsize ⟨0, 0, i⟩ < i + 1 := Nat.lt_succ_self i
  rw [if_pos hc]
  have hsub : i + 1 - (i + 1) = 0 := Nat.sub_self (i + 1)
  rw [hsub]
  constructor
  · apply flmInner_stall
    intro j hj
    show (if j = 0 then 0 else g (j - 1)) + 1 ≤ i + 1
    by_cases hj0 : j = 0
    · rw [if_pos hj0]; omega
    · rw [if_neg hj0]
      have := hg1 (j - 1)
      omega
  · refine (flmInner_dict_away _ _ _ _ _ _ _ _ (fun j hj => by
      have := hsufmem j hj
      omega)).trans ?_
    dsimp only
    rw [if_pos rfl]

/-- Running the self-comparison rows `[i, a.length)` from best `(0, 0, i)`
with an exact diagonal dictionary ends at best `(0, 0, a.length)`. -/
theorem flmRows_diag (a : Str) (cnt : Nat) :
    ∀ (i : Nat) (g : Nat → Nat), i + cnt = a.length →
    (∀ x, g x ≤ i) → (∀ x, g x ≤ x + 1) → (0 < i → g (i - 1) = i) →
    (flmRows a a 0 a.length (List.range' i cnt) g ⟨0, 0, i⟩).2 =
      ⟨0, 0, a.length⟩ := by
  induction cnt with
  | zero =>
    intro i g hi _ _ _
    rw [show List.range' i 0 = [] from rfl, flmRows_nil]
    show (⟨0, 0, i⟩ : Match3) = ⟨0, 0, a.length⟩
    rw [show i = a.length by omega]
  | succ cnt ih =>
    intro i g hi hg1 hg2 hgd
    rw [List.range'_succ, flmRows_cons]
    have hrow := flmRow_diag a i (by omega) g hg1 hg2 hgd
    have hdict := flmInner_inv 0 a.length i 0 a.length g (b2j a (a.getD i ' '))
      (Nat.zero_le i) (by omega)
      (fun x => Or.inr ⟨Nat.zero_le x,
        by have := hg1 x; omega, by have := hg2 x; omega⟩)
      (fun _ => 0) ⟨0, 0, i⟩ (fun x => Or.inl rfl)
      ⟨Nat.zero_le _, Nat.zero_le _,
        by show 0 + i ≤ a.length; omega, by show 0 + i ≤ a.length; omega⟩
    rw [hrow.1]
    refine ih (i + 1) _ (by omega) (fun x => ?_) (fun x => ?_) (fun _ => hrow.2)
    · rcases hdict.1 x with h0 | ⟨_, hx1, _⟩
      · omega
      · omega
    · rcases hdict.1 x with h0 | ⟨_, _, hx2⟩
      · omega
      · omega

/-- The forward extension loop is the identity when the best match already
reaches the right edge of the region. -/
theorem extendFwd_stuck (a b : Str) (ahi bhi : Nat) (fuel : Nat) :
    ∀ st : Match3, ¬ st.besti + st.bestsize < ahi →
    extendFwd a b ahi bhi fuel st = st := by
  induction fuel with
  | zero => intro st _; rfl
  | succ fuel ih =>
    intro st h
    rw [extendFwd_succ, if_neg (fun hc => h hc.1)]

/-- On identical inputs, `find_longest_match` over the whole strings
returns the full diagonal. -/
theorem flm_self (a : Str) :
    find_longest_match a a 0 a.length 0 a.length = ⟨0, 0, a.length⟩ := by
  have hrows := flmRows_diag a a.length 0 (fun _ => 0) (Nat.zero_add _)
    (fun _ => Nat.zero_le _) (fun _ => Nat.zero_le _)
    (fun h => absurd h (Nat.lt_irrefl 0))
  show extendFwd a a a.length a.length a.length
      (extendBack a a 0 0
        (flmRows a a 0 a.length (List.range' 0 a.length)
          (fun _ => 0) ⟨0, 0, 0⟩).2.besti
        (flmRows a a 0 a.length (List.range' 0 a.length)
          (fun _ => 0) ⟨0, 0, 0⟩).2) = ⟨0, 0, a.length⟩
  rw [hrows]
  rw [show extendBack a a 0 0 (Match3.besti ⟨0, 0, a.length⟩)
      ⟨0, 0, a.length⟩ = ⟨0, 0, a.length⟩ from rfl]
  exact extendFwd_stuck a a a.length a.length a.length ⟨0, 0, a.length⟩
    (by show ¬ 0 + a.length < a.length; omega)

/-- On a non-empty input, the self-comparison matches everything. -/
theorem matchesTotal_self (a : Str) (ha : a ≠ []) : matchesTotal a a = a.length := by
  have hn : a.length ≠ 0 := fun h => ha (List.eq_nil_of_length_eq_zero h)
  unfold matchesTotal
  rw [matchBlocks_succ, flm_self]
  have h1 : Match3.bestsize (⟨0, 0, a.length⟩ : Match3) ≠ 0 := hn
  rw [if_neg h1]
  have h2 : ¬ (0 < Match3.besti (⟨0, 0, a.length⟩ : Match3) ∧
      0 < Match3.bestj (⟨0, 0, a.length⟩ : Match3)) := fun h => Nat.lt_irrefl 0 h.1
  rw [if_neg h2]
  have h3 : ¬ (Match3.besti (⟨0, 0, a.length⟩ : Match3) +
        Match3.bestsize (⟨0, 0, a.length⟩ : Match3) < a.length ∧
      Match3.bestj (⟨0, 0, a.length⟩ : Match3) +
        Match3.bestsize (⟨0, 0, a.length⟩ : Match3) < a.length) := by
    show ¬ (0 + a.length < a.length ∧ 0 + a.length < a.length)
    omega
  rw [if_neg h3, List.nil_append, sumSizes_cons, sumSizes_nil]
  show a.length + 0 = a.length
  omega

end Difflib

/-- C8 — Similarity bounds: for all strings `a` and `b`,
`0 ≤ similarity_score(a, b) ≤ 1`; for every non-empty `a`,
`similarity_score(a, a) = 1`; and `similarity_score("", b) = 0`. -/
theorem C8_similarity_bounds (a b : TaiwanScraper.Str) :
    0 ≤ (DataMerger.similarity_score a b).toRat ∧
    (DataMerger.similarity_score a b).toRat ≤ 1 ∧
    (a ≠ [] → (DataMerger.similarity_score a a).toRat = 1) ∧
    (DataMerger.similarity_score [] b).toRat = 0 := by
  refine ⟨TaiwanScraper.Score.toRat_nonneg _, ?_, ?_, ?_⟩
  · unfold DataMerger.similarity_score
    by_cases h : a = [] ∨ b = []
    · rw [if_pos h]
      unfold TaiwanScraper.Score.toRat
      norm_num
    · rw [if_neg h]
      unfold TaiwanScraper.Score.toRat
      push_neg at h
      have hla : 0 < a.length := List.length_pos.mpr h.1
      have hlb : 0 < b.length := List.length_pos.mpr h.2
      have hm := Difflib.matchesTotal_le a b
      dsimp only
      rw [div_le_one (by exact_mod_cast Nat.add_pos_left hla _)]
      exact_mod_cast (by omega : 2 * Difflib.matchesTotal a b ≤ a.length + b.length)
  · intro ha
    unfold DataMerger.similarity_score
    rw [if_neg (by simpa using ha : ¬ (a = [] ∨ a = []))]
    unfold TaiwanScraper.Score.toRat
    dsimp only
    rw [Difflib.matchesTotal_self a ha]
    have hne : ((a.length + a.length : ℕ) : ℚ) ≠ 0 := by
      have hla : 0 < a.length := List.length_pos.mpr ha
      exact_mod_cast (by omega : (a.length + a.length) ≠ 0)
    rw [div_eq_one_iff_eq hne]
    push_cast
    ring
  · unfold DataMerger.similarity_score
    rw [if_pos (Or.inl rfl)]
    unfold TaiwanScraper.Score.toRat
    norm_num

/-- C8, witness: the self-similarity clause applied at the concrete
non-empty string "ab" evaluates to the score 1. -/
theorem C8_similarity_bounds_witness :
    ('a' :: 'b' :: [] : TaiwanScraper.Str) ≠ [] ∧
    (DataMerger.similarity_score ('a' :: 'b' :: [])
      ('a' :: 'b' :: [])).toRat = 1 :=
  ⟨by decide, (C8_similarity_bounds ('a' :: 'b' :: [])
    ('a' :: 'b' :: [])).2.2.1 (by decide)⟩
